import Mathlib

/-!
Verification of the docker-awakening-gateway routing/state/lifecycle engine.

Shallow embedding of the Go sources (package `gateway`): configuration model
(config.go), discovery merge (discovery.go), validation (config.go), group
router and topological sort (metrics.go), idle sweeper and start-state store
(manager.go), forwarding headers and rate limiter (server.go), container
address resolution (docker.go).

Conventions of the embedding:
* Go `time.Duration` / `time.Time` values are `Int` (nanoseconds); Go map
  types are association lists `List (String × α)` with first-match lookup
  and an update that replaces the key;
* fallible Go functions return `Except String α`;
* ASCII single quotes inside Go error-message literals are rendered as
  double quotes here (the affected messages are never inspected verbatim
  by any theorem);
* goroutine-based code (EnsureRunning under concurrent requests) is given
  as a small-step transition relation over thread program counters.
-/

/-- Association-list lookup, mirroring Go `v, ok := m[k]` (first match wins;
states built by `setEntry` keep one entry per key). -/
def lookupA {α : Type} : List (String × α) → String → Option α
  | [], _ => none
  | (k, v) :: rest, key => if k = key then some v else lookupA rest key

/-- Association-list deletion, mirroring Go `delete(m, k)`. -/
def delEntry {α : Type} : List (String × α) → String → List (String × α)
  | [], _ => []
  | p :: rest, key =>
    if p.1 = key then delEntry rest key else p :: delEntry rest key

/-- Association-list update, mirroring Go `m[k] = v`. -/
def setEntry {α : Type} (m : List (String × α)) (key : String) (v : α) :
    List (String × α) :=
  (key, v) :: delEntry m key

/-- `AdminAuthConfig` from config.go. -/
structure AdminAuthConfig where
  method : String
  username : String
  password : String
  token : String
deriving Repr, DecidableEq

/-- `GlobalConfig` from config.go. -/
structure GlobalConfig where
  port : String
  logLines : Int
  trustedProxies : List String
  discoveryInterval : Int
  adminAuth : AdminAuthConfig
deriving Repr, DecidableEq

/-- `ContainerConfig` from config.go. -/
structure ContainerConfig where
  name : String
  host : String
  targetPort : String
  startTimeout : Int
  idleTimeout : Int
  network : String
  redirectPath : String
  icon : String
  healthPath : String
  dependsOn : List String
deriving Repr, DecidableEq

/-- `GroupConfig` from config.go. -/
structure GroupConfig where
  name : String
  host : String
  strategy : String
  containers : List String
deriving Repr, DecidableEq

/-- `GatewayConfig` from config.go. -/
structure GatewayConfig where
  gateway : GlobalConfig
  containers : List ContainerConfig
  groups : List GroupConfig
deriving Repr, DecidableEq

/-! ## docker.go: GetContainerAddress -/

/-- `joinNetworkNames` from docker.go: lists attached network names for error
messages. The Go version iterates a map; the embedding keeps list order. -/
def joinNetworkNames (nets : List (String × String)) : String :=
  String.intercalate ", " (nets.map (fun p => p.1))

/-- First non-empty IP across attachments (the `network == ""` fallback loop
of `GetContainerAddress`). -/
def firstNonEmptyIP : List (String × String) → Option String
  | [] => none
  | (_, ip) :: rest => if ip ≠ "" then some ip else firstNonEmptyIP rest

/-- `GetContainerAddress` from docker.go, after a successful inspect:
`nets` is `info.NetworkSettings.Networks` as (network name, IPAddress) pairs. -/
def GetContainerAddress (containerName : String)
    (nets : List (String × String)) (network : String) :
    Except String String :=
  if nets.length = 0 then
    .error ("container " ++ containerName ++ " has no network interfaces")
  else if network ≠ "" then
    match lookupA nets network with
    | some n =>
      if n ≠ "" then .ok n
      else .error ("container " ++ containerName ++ " is not on network \"" ++
        network ++ "\" (attached networks: " ++ joinNetworkNames nets ++ ")")
    | none =>
      .error ("container " ++ containerName ++ " is not on network \"" ++
        network ++ "\" (attached networks: " ++ joinNetworkNames nets ++ ")")
  else
    match firstNonEmptyIP nets with
    | some ip => .ok ip
    | none => .error ("could not find IP address for container " ++ containerName)

/-! ## server.go: setForwardedHeaders -/

/-- The four forwarding headers touched by `setForwardedHeaders` in server.go.
Go `Header.Get` returns `""` both for an absent and an empty header, so the
embedding uses plain `String` fields with `""` meaning unset. -/
structure ProxyHeaders where
  xForwardedFor : String
  xRealIP : String
  xForwardedProto : String
  xForwardedHost : String
deriving Repr, DecidableEq

/-- `setForwardedHeaders` from server.go. `clientIP` is the host part of
`r.RemoteAddr`, `tls` is `r.TLS != nil`, `host` is `r.Host`. -/
def setForwardedHeaders (h : ProxyHeaders) (clientIP : String) (tls : Bool)
    (host : String) : ProxyHeaders :=
  let xff := if h.xForwardedFor ≠ "" then h.xForwardedFor ++ ", " ++ clientIP
             else clientIP
  let xrip := if h.xRealIP = "" then clientIP else h.xRealIP
  let proto := if tls then "https" else "http"
  { xForwardedFor := xff, xRealIP := xrip, xForwardedProto := proto,
    xForwardedHost := host }

/-! ## discovery.go: mergeConfigs -/

/-- The dynamic-containers loop of `mergeConfigs` (discovery.go): a discovered
container is appended only if neither its host nor its name collides with an
entry already present; on append both are recorded as seen. -/
def mergeLoop : List ContainerConfig → List ContainerConfig → List String →
    List String → List ContainerConfig
  | [], acc, _, _ => acc
  | dc :: rest, acc, seenHosts, seenNames =>
    if seenHosts.contains dc.host then mergeLoop rest acc seenHosts seenNames
    else if seenNames.contains dc.name then mergeLoop rest acc seenHosts seenNames
    else mergeLoop rest (acc ++ [dc]) (seenHosts ++ [dc.host])
      (seenNames ++ [dc.name])

/-- `mergeConfigs` from discovery.go. The Go code builds
`merged := &GatewayConfig{Gateway: dm.staticConfig.Gateway}` and appends only
to `merged.Containers`; the `Groups` field keeps its zero value (empty). -/
def mergeConfigs (staticConfig : GatewayConfig)
    (dynamic : List ContainerConfig) : GatewayConfig :=
  { gateway := staticConfig.gateway,
    containers := mergeLoop dynamic staticConfig.containers
      (staticConfig.containers.map (fun c => c.host))
      (staticConfig.containers.map (fun c => c.name)),
    groups := [] }

/-! ## metrics.go: GroupRouter.Pick -/

/-- One more than the largest `uint64`; the per-group counter wraps at this
modulus. -/
def U64MOD : Nat := 2 ^ 64

/-- `GroupRouter.Pick` from metrics.go: the per-group `atomic.Uint64` counter
is modelled as a `Nat` kept below `U64MOD`; `counter.Add(1) - 1` is uint64
arithmetic, rendered with an explicit wrap. Returns the picked member and the
updated counter map. -/
def Pick (counters : List (String × Nat)) (g : GroupConfig) :
    String × List (String × Nat) :=
  if g.containers.length = 0 then ("", counters)
  else if g.containers.length = 1 then (g.containers.getD 0 "", counters)
  else
    let c := (lookupA counters g.name).getD 0
    let c1 := (c + 1) % U64MOD
    let idx := (c1 + (U64MOD - 1)) % U64MOD
    (g.containers.getD (idx % g.containers.length) "",
      setEntry counters g.name c1)

/-- Counter state after `k` picks of group `g`, starting from the router's
initial empty counter map. -/
def pickState (g : GroupConfig) : Nat → List (String × Nat)
  | 0 => []
  | k + 1 => (Pick (pickState g k) g).2

/-- The member returned by the `k`-th call to `Pick` for group `g`
(counting from 1, across the process lifetime). -/
def pickAt (g : GroupConfig) (k : Nat) : String :=
  (Pick (pickState g (k - 1)) g).1

/-! ## manager.go: start states and the idle sweeper -/

/-- `startStatus` from manager.go. -/
inductive StartStatus where
  | starting
  | running
  | failed
deriving Repr, DecidableEq

/-- `startState` from manager.go. -/
structure StartState where
  status : StartStatus
  err : String
deriving Repr, DecidableEq

/-- A readiness-probe invocation on the runtime adapter: `ProbeHTTP` or
`ProbeTCP` from docker.go, identified by its arguments. -/
inductive ProbeCall where
  | http (ip port path : String)
  | tcp (ip port : String)
deriving Repr, DecidableEq

/-- Modelled from the spec: the readiness-probe step of the final
`ContainerManager.EnsureRunning`. The current manager.go is not under src/
(src/gateway/server.go, main.go and manager_test.go reference
`EnsureDepsRunning`, `EnsureGroupRunning` and `GetLastSeen`, none of which
the included manager.go defines), so this step follows spec §4.4 step 3:
resolve the container IP (mark `failed` on error); if `health_path` is
non-empty call `probe_http`, else `probe_tcp`; on probe success mark
`running`, on failure mark `failed`. Returns the overall result, the list
of probe calls issued, and the final start state. `probeSucceeds` abstracts
the runtime's answer to a probe. -/
def probeReady (cfg : ContainerConfig) (ipResult : Except String String)
    (probeSucceeds : ProbeCall → Bool) :
    Except String Unit × List ProbeCall × StartState :=
  match ipResult with
  | .error e =>
    (.error ("cannot resolve container address: " ++ e), [],
      { status := .failed, err := "cannot resolve container address: " ++ e })
  | .ok ip =>
    let call := if cfg.healthPath ≠ "" then
        ProbeCall.http ip cfg.targetPort cfg.healthPath
      else ProbeCall.tcp ip cfg.targetPort
    if probeSucceeds call then (.ok (), [call], { status := .running, err := "" })
    else
      (.error ("app not responding on port " ++ cfg.targetPort), [call],
        { status := .failed, err := "app not responding on port " ++ cfg.targetPort })

/-- Result of one idle-sweeper pass (`checkIdle` in manager.go): the names
passed to `StopContainer` in order, and the start-state and last-seen maps
after the pass. -/
structure CheckIdleResult where
  stopped : List String
  startStates : List (String × StartState)
  lastSeen : List (String × Int)
deriving Repr, DecidableEq

/-- `checkIdle` from manager.go. `lastSeen` is the snapshot taken under the
mutex, `docker` maps container names to their runtime status (absent key =
inspect error), `stopOk` is the set of names for which `StopContainer`
succeeds, `now` is the sweep time. The runtime is treated as constant during
one pass. A successful stop deletes that container's start-state entry; the
last-seen map is never modified. -/
def checkIdle (cfgs : List ContainerConfig) (lastSeen : List (String × Int))
    (startStates : List (String × StartState))
    (docker : List (String × String)) (stopOk : List String) (now : Int) :
    CheckIdleResult :=
  match cfgs with
  | [] => { stopped := [], startStates := startStates, lastSeen := lastSeen }
  | cfg :: rest =>
    if cfg.idleTimeout = 0 then
      checkIdle rest lastSeen startStates docker stopOk now
    else
      match lookupA lastSeen cfg.name with
      | none => checkIdle rest lastSeen startStates docker stopOk now
      | some last =>
        if now - last < cfg.idleTimeout then
          checkIdle rest lastSeen startStates docker stopOk now
        else
          match lookupA docker cfg.name with
          | none => checkIdle rest lastSeen startStates docker stopOk now
          | some status =>
            if status = "running" then
              if stopOk.contains cfg.name then
                let r := checkIdle rest lastSeen
                  (delEntry startStates cfg.name) docker stopOk now
                { stopped := cfg.name :: r.stopped,
                  startStates := r.startStates, lastSeen := r.lastSeen }
              else
                let r := checkIdle rest lastSeen startStates docker stopOk now
                { stopped := cfg.name :: r.stopped,
                  startStates := r.startStates, lastSeen := r.lastSeen }
            else checkIdle rest lastSeen startStates docker stopOk now

/-- A static catalog with one workload and one group, as in the round-robin
scenario of the spec. -/
def sampleStaticConfig : GatewayConfig :=
  { gateway :=
      { port := "8080", logLines := 30, trustedProxies := [],
        discoveryInterval := 15000000000,
        adminAuth :=
          { method := "none", username := "", password := "",
            token := "" } },
    containers :=
      [{ name := "api-1", host := "api1.localhost", targetPort := "80",
         startTimeout := 60000000000, idleTimeout := 0, network := "",
         redirectPath := "/", icon := "docker", healthPath := "",
         dependsOn := [] }],
    groups :=
      [{ name := "api-cluster", host := "api.localhost",
         strategy := "round-robin", containers := ["api-1"] }] }

/-- The three-member group of the round-robin scenario. -/
def apiCluster : GroupConfig :=
  { name := "api-cluster", host := "api.localhost",
    strategy := "round-robin",
    containers := ["api-1", "api-2", "api-3"] }

/-! ## server.go: rate limiter -/

/-- `rateLimiter.Allow` from server.go: admit when the IP is unseen or at
least `minInterval` has elapsed since its stored timestamp; stamp the map
with `now` exactly on admission. Returns (admitted, updated map). -/
def Allow (minInterval : Int) (lastSeen : List (String × Int)) (now : Int)
    (ip : String) : Bool × List (String × Int) :=
  match lookupA lastSeen ip with
  | none => (true, setEntry lastSeen ip now)
  | some last =>
    if minInterval ≤ now - last then (true, setEntry lastSeen ip now)
    else (false, lastSeen)

/-- `rateLimiter.evictStale` from server.go: drop entries whose timestamp is
before `now - 2 * minInterval`. -/
def evictStale (minInterval : Int) (lastSeen : List (String × Int))
    (now : Int) : List (String × Int) :=
  lastSeen.filter (fun p => !decide (p.2 < now - 2 * minInterval))

/-- An operation on the rate limiter, tagged with its wall-clock time. -/
inductive RLOp where
  | allow (t : Int) (ip : String)
  | evict (t : Int)
deriving Repr, DecidableEq

/-- The wall-clock time at which a rate-limiter operation runs. -/
def rlOpTime : RLOp → Int
  | .allow t _ => t
  | .evict t => t

/-- Run a sequence of rate-limiter operations, threading the map. -/
def runRL (minInterval : Int) (lastSeen : List (String × Int)) :
    List RLOp → List (String × Int)
  | [] => lastSeen
  | .allow t ip :: rest => runRL minInterval (Allow minInterval lastSeen t ip).2 rest
  | .evict t :: rest => runRL minInterval (evictStale minInterval lastSeen t) rest

/-! ## config.go: Validate -/

/-- Names of all containers of a catalog (`nameSet` in `Validate`). -/
def containerNames (c : GatewayConfig) : List String :=
  c.containers.map (fun ctr => ctr.name)

/-- Names appearing as members of some group (`groupMembers` in `Validate`). -/
def groupMembers (c : GatewayConfig) : List String :=
  (c.groups.map (fun g => g.containers)).flatten

/-- Names appearing as a dependency of some container (`depTargets`). -/
def depTargets (c : GatewayConfig) : List String :=
  (c.containers.map (fun ctr => ctr.dependsOn)).flatten

/-- The admin-auth arm of `Validate` (config.go): method `""`/`"none"` passes,
`"basic"` needs user and password, `"bearer"` needs a token, anything else
is rejected. -/
def validateAdminAuth (a : AdminAuthConfig) : Except String Unit :=
  if a.method = "" ∨ a.method = "none" then .ok ()
  else if a.method = "basic" then
    if a.username = "" ∨ a.password = "" then
      .error "admin_auth: method=basic requires non-empty username and password"
    else .ok ()
  else if a.method = "bearer" then
    if a.token = "" then
      .error "admin_auth: method=bearer requires non-empty token"
    else .ok ()
  else
    .error ("admin_auth: unknown method \"" ++ a.method ++
      "\" (allowed: none, basic, bearer)")

/-- The `depends_on` reference checks of the container loop in `Validate`. -/
def checkDeps (nameSet : List String) (ctrName : String) :
    List String → Except String Unit
  | [] => .ok ()
  | dep :: ds =>
    if dep ∉ nameSet then
      .error ("container \"" ++ ctrName ++ "\" depends on unknown container \"" ++
        dep ++ "\"")
    else if dep = ctrName then
      .error ("container \"" ++ ctrName ++ "\" cannot depend on itself")
    else checkDeps nameSet ctrName ds

/-- The container loop of `Validate` (config.go), threading the `seenNames`
and `seenHosts` sets; returns both on success. `i` is the 0-based index used
in the `container #N` message. -/
def validateCtrs (nameSet gm dt : List String) :
    List ContainerConfig → Nat → List String → List String →
    Except String (List String × List String)
  | [], _, seenNames, seenHosts => .ok (seenNames, seenHosts)
  | ctr :: rest, i, seenNames, seenHosts =>
    if ctr.name = "" then
      .error ("container #" ++ toString (i + 1) ++
        " is missing required field \"name\"")
    else if ctr.host = "" ∧ ctr.name ∉ gm ∧ ctr.name ∉ dt then
      .error ("container \"" ++ ctr.name ++ "\" is missing required field \"host\"")
    else if ctr.targetPort = "" then
      .error ("container \"" ++ ctr.name ++
        "\" is missing required field \"target_port\"")
    else if ctr.name ∈ seenNames then
      .error ("duplicate container name found: \"" ++ ctr.name ++ "\"")
    else if ctr.host ≠ "" then
      if ctr.host ∈ seenHosts then
        .error ("duplicate host mapped: \"" ++ ctr.host ++ "\" (in container \"" ++
          ctr.name ++ "\")")
      else
        match checkDeps nameSet ctr.name ctr.dependsOn with
        | .error e => .error e
        | .ok _ => validateCtrs nameSet gm dt rest (i + 1)
            (seenNames ++ [ctr.name]) (seenHosts ++ [ctr.host])
    else
      match checkDeps nameSet ctr.name ctr.dependsOn with
      | .error e => .error e
      | .ok _ => validateCtrs nameSet gm dt rest (i + 1)
          (seenNames ++ [ctr.name]) seenHosts

/-- The member reference checks of the group loop in `Validate`. -/
def checkMembers (nameSet : List String) (gname : String) :
    List String → Except String Unit
  | [] => .ok ()
  | cn :: rest =>
    if cn ∉ nameSet then
      .error ("group \"" ++ gname ++ "\" references unknown container \"" ++
        cn ++ "\"")
    else checkMembers nameSet gname rest

/-- The group loop of `Validate` (config.go). `seenHosts` continues from the
container loop, so a group host conflicting with any earlier host errors. -/
def validateGrps (nameSet : List String) :
    List GroupConfig → Nat → List String → List String → Except String Unit
  | [], _, _, _ => .ok ()
  | g :: rest, i, seenGroupNames, seenHosts =>
    if g.name = "" then
      .error ("group #" ++ toString (i + 1) ++ " is missing required field \"name\"")
    else if g.host = "" then
      .error ("group \"" ++ g.name ++ "\" is missing required field \"host\"")
    else if g.containers = [] then
      .error ("group \"" ++ g.name ++ "\" has no containers")
    else if g.name ∈ seenGroupNames then
      .error ("duplicate group name found: \"" ++ g.name ++ "\"")
    else if g.host ∈ seenHosts then
      .error ("group \"" ++ g.name ++ "\" host \"" ++ g.host ++
        "\" conflicts with an existing host")
    else
      match checkMembers nameSet g.name g.containers with
      | .error e => .error e
      | .ok _ => validateGrps nameSet rest (i + 1)
          (seenGroupNames ++ [g.name]) (seenHosts ++ [g.host])

/-- `joinPath` from config.go. -/
def joinPath (path : List String) : String :=
  String.intercalate " → " path

/-- Generic error-propagating fold used by the DFS visits. -/
def foldVisit (f : String → List String × List String →
    Except String (List String × List String)) :
    List String → List String × List String →
    Except String (List String × List String)
  | [], st => .ok st
  | d :: ds, st =>
    match f d st with
    | .error e => .error e
    | .ok st2 => foldVisit f ds st2

/-- The recursive `visit` of `detectDependencyCycles` (config.go): the state
is the pair (visiting, visited); `path` is the current DFS path used for the
cycle message. Recursion depth is bounded by the number of distinct names,
so the fuel `containers.length + 1` used below never runs out. -/
def cdVisit (depsMap : List (String × List String)) :
    Nat → String → List String → List String × List String →
    Except String (List String × List String)
  | 0, _, _, _ => .error "cycle-check recursion limit exceeded"
  | fuel + 1, name, path, st =>
    if name ∈ st.2 then .ok st
    else if name ∈ st.1 then
      .error ("dependency cycle detected: " ++ joinPath path ++ " → " ++ name)
    else
      match foldVisit (fun d st2 => cdVisit depsMap fuel d (path ++ [name]) st2)
          ((lookupA depsMap name).getD []) (name :: st.1, st.2) with
      | .error e => .error e
      | .ok (vg, vd) => .ok (vg.erase name, name :: vd)

/-- The outer loop of `detectDependencyCycles`: visit every container whose
state is still `unvisited`. -/
def cdOuter (depsMap : List (String × List String)) (fuel : Nat) :
    List ContainerConfig → List String × List String → Except String Unit
  | [], _ => .ok ()
  | c :: rest, st =>
    if c.name ∈ st.1 ∨ c.name ∈ st.2 then cdOuter depsMap fuel rest st
    else
      match cdVisit depsMap fuel c.name [] st with
      | .error e => .error e
      | .ok st2 => cdOuter depsMap fuel rest st2

/-- `detectDependencyCycles` from config.go. The Go adjacency map takes the
last entry for a repeated name, hence the reversed list for lookup. -/
def detectDependencyCycles (containers : List ContainerConfig) :
    Except String Unit :=
  cdOuter ((containers.map (fun c => (c.name, c.dependsOn))).reverse)
    (containers.length + 1) containers ([], [])

/-- `Validate` from config.go: port check, admin-auth check, container loop,
group loop (continuing the same seen-hosts set), then cycle detection. -/
def Validate (c : GatewayConfig) : Except String Unit :=
  if c.gateway.port = "" then .error "gateway.port cannot be empty"
  else
    match validateAdminAuth c.gateway.adminAuth with
    | .error e => .error e
    | .ok _ =>
      match validateCtrs (containerNames c) (groupMembers c) (depTargets c)
          c.containers 0 [] [] with
      | .error e => .error e
      | .ok (_, seenHosts) =>
        match validateGrps (containerNames c) c.groups 0 [] seenHosts with
        | .error e => .error e
        | .ok _ => detectDependencyCycles c.containers

/-- The non-empty host values of a catalog, workloads first, then groups. -/
def nonEmptyHosts (c : GatewayConfig) : List String :=
  (c.containers.map (fun ctr => ctr.host) ++
    c.groups.map (fun g => g.host)).filter (fun h => h ≠ "")

/-- The per-container checks of `Validate` that precede the host-duplicate
check for that container. -/
def CtrPre (nameSet gm dt : List String) (ctr : ContainerConfig) : Prop :=
  ctr.name ≠ "" ∧ ctr.targetPort ≠ "" ∧
  (ctr.host = "" → ctr.name ∈ gm ∨ ctr.name ∈ dt) ∧
  ∀ d ∈ ctr.dependsOn, d ∈ nameSet ∧ d ≠ ctr.name

/-- The per-group checks of `Validate` that precede the host-conflict check
for that group. -/
def GrpPre (nameSet : List String) (g : GroupConfig) : Prop :=
  g.name ≠ "" ∧ g.host ≠ "" ∧ g.containers ≠ [] ∧
  ∀ m ∈ g.containers, m ∈ nameSet

/-- Every `Validate` check that precedes host-duplicate detection: non-empty
port, valid admin auth, per-container field and dependency checks, unique
container names, per-group field and member checks, unique group names.
Under these, the first error `Validate` can report is a duplicated host. -/
def PreChecksOK (c : GatewayConfig) : Prop :=
  c.gateway.port ≠ "" ∧
  validateAdminAuth c.gateway.adminAuth = .ok () ∧
  (∀ ctr ∈ c.containers,
    CtrPre (containerNames c) (groupMembers c) (depTargets c) ctr) ∧
  (containerNames c).Nodup ∧
  (∀ g ∈ c.groups, GrpPre (containerNames c) g) ∧
  (c.groups.map (fun g => g.name)).Nodup

/-- A catalog in which two workloads share the host `dup.localhost` while
every other validation requirement holds. -/
def dupHostConfig : GatewayConfig :=
  { gateway :=
      { port := "8080", logLines := 30, trustedProxies := [],
        discoveryInterval := 15000000000,
        adminAuth :=
          { method := "none", username := "", password := "",
            token := "" } },
    containers :=
      [{ name := "app-a", host := "dup.localhost", targetPort := "80",
         startTimeout := 60000000000, idleTimeout := 0, network := "",
         redirectPath := "/", icon := "docker", healthPath := "",
         dependsOn := [] },
       { name := "app-b", host := "dup.localhost", targetPort := "80",
         startTimeout := 60000000000, idleTimeout := 0, network := "",
         redirectPath := "/", icon := "docker", healthPath := "",
         dependsOn := [] }],
    groups := [] }

/-! ## metrics.go: TopologicalSort -/

/-- DFS state of `TopologicalSort`: the `visited`/`visiting` marks and the
accumulated order. -/
structure DfsSt where
  visited : List String
  visiting : List String
  order : List String
deriving Repr, DecidableEq

/-- Lookup in the `cfgMap` built by `TopologicalSort`: the Go map is filled
in list order so a repeated name keeps the last entry, hence the reverse. -/
def lookupCfg (containers : List ContainerConfig) (name : String) :
    Option ContainerConfig :=
  containers.reverse.find? (fun c => c.name = name)

/-- Sequentialised visit of a dependency list, stopping at the first error
(the `for _, dep := range cfg.DependsOn` loop of `visit`). -/
def visitDeps (f : DfsSt → String → Except String DfsSt) :
    DfsSt → List String → Except String DfsSt
  | st, [] => .ok st
  | st, d :: ds =>
    match f st d with
    | .error e => .error e
    | .ok st2 => visitDeps f st2 ds

/-- The recursive `visit` of `TopologicalSort` (metrics.go). The fuel models
the call depth: every recursive call is made after pushing a fresh name onto
`visiting`, and pushed names come from the container map, so the depth never
exceeds `containers.length + 1` and the fuel used by `TopologicalSort` below
cannot run out. -/
def visitF (containers : List ContainerConfig) :
    Nat → DfsSt → String → Except String DfsSt
  | 0, _, _ => .error "recursion limit exceeded"
  | fuel + 1, st, name =>
    if name ∈ st.visited then .ok st
    else if name ∈ st.visiting then
      .error ("dependency cycle detected involving \"" ++ name ++ "\"")
    else
      match lookupCfg containers name with
      | none =>
        .error ("dependency \"" ++ name ++ "\" not found in container list")
      | some cfg =>
        match visitDeps (fun s d => visitF containers fuel s d)
            { st with visiting := name :: st.visiting } cfg.dependsOn with
        | .error e => .error e
        | .ok st2 =>
          .ok { visited := name :: st2.visited,
                visiting := st2.visiting.erase name,
                order := st2.order ++ [name] }

/-- `TopologicalSort` from metrics.go: check the target exists, then DFS. -/
def TopologicalSort (target : String)
    (allContainers : List ContainerConfig) : Except String (List String) :=
  match lookupCfg allContainers target with
  | none => .error ("target container \"" ++ target ++ "\" not found")
  | some _ =>
    match visitF allContainers (allContainers.length + 1)
        { visited := [], visiting := [], order := [] } target with
    | .error e => .error e
    | .ok st => .ok st.order

/-- The dependency edge of a catalog: `x` requires `y`. -/
def DepEdge (containers : List ContainerConfig) (x y : String) : Prop :=
  ∃ cfg, lookupCfg containers x = some cfg ∧ y ∈ cfg.dependsOn

/-- Invariant of the DFS state: the order has no duplicates, matches the
visited set, avoids the visiting set, and every ordered node resolves in the
catalog with all its dependencies at earlier positions. -/
def DfsInv (containers : List ContainerConfig) (st : DfsSt) : Prop :=
  st.order.Nodup ∧
  (∀ x, x ∈ st.visited ↔ x ∈ st.order) ∧
  (∀ x ∈ st.order, x ∉ st.visiting) ∧
  (∀ x ∈ st.order, ∃ cfg, lookupCfg containers x = some cfg ∧
    ∃ l1 l2, st.order = l1 ++ x :: l2 ∧ ∀ d ∈ cfg.dependsOn, d ∈ l1)

/-- The three-container dependency chain of the spec scenario:
`app` depends on `api`, `api` depends on `db`. -/
def chainCatalog : List ContainerConfig :=
  [{ name := "app", host := "app.localhost", targetPort := "80",
     startTimeout := 60000000000, idleTimeout := 0, network := "",
     redirectPath := "/", icon := "docker", healthPath := "",
     dependsOn := ["api"] },
   { name := "api", host := "", targetPort := "80",
     startTimeout := 60000000000, idleTimeout := 0, network := "",
     redirectPath := "/", icon := "docker", healthPath := "",
     dependsOn := ["db"] },
   { name := "db", host := "", targetPort := "80",
     startTimeout := 60000000000, idleTimeout := 0, network := "",
     redirectPath := "/", icon := "docker", healthPath := "",
     dependsOn := [] }]

/-- A two-container dependency cycle: `a` and `b` depend on each other. -/
def cycleCatalog : List ContainerConfig :=
  [{ name := "a", host := "a.localhost", targetPort := "80",
     startTimeout := 60000000000, idleTimeout := 0, network := "",
     redirectPath := "/", icon := "docker", healthPath := "",
     dependsOn := ["b"] },
   { name := "b", host := "b.localhost", targetPort := "80",
     startTimeout := 60000000000, idleTimeout := 0, network := "",
     redirectPath := "/", icon := "docker", healthPath := "",
     dependsOn := ["a"] }]

/-! ## manager.go: EnsureRunning under concurrent requests -/

/-- Program counter of one request thread executing `EnsureRunning`
(manager.go): initial status check, lock acquisition, double-check under the
lock, the `StartContainer` call, the poll loop waiting for "running", the
deferred unlock, and completion. -/
inductive PC where
  | checkStatus
  | tryLock
  | doubleCheck
  | doStart
  | poll
  | unlock
  | done
deriving Repr, DecidableEq

/-- Shared state of the concurrent `EnsureRunning` model: one program
counter per thread, the per-container mutex (`lockOwner`), whether
`StartContainer` has been requested of the runtime (`started`), whether the
runtime reports the container running (`running`), and the number of
`StartContainer` invocations issued. -/
structure CState where
  pcs : List PC
  lockOwner : Option Nat
  started : Bool
  running : Bool
  startCount : Nat
deriving Repr, DecidableEq

/-- Pointwise list update used for program counters. -/
def setPC : List PC → Nat → PC → List PC
  | [], _, _ => []
  | _ :: rest, 0, v => v :: rest
  | p :: rest, i + 1, v => p :: setPC rest i v

/-- `n` request threads about to call `EnsureRunning` on a stopped
container: nothing started, lock free. -/
def initState (n : Nat) : CState :=
  { pcs := List.replicate n PC.checkStatus, lockOwner := none,
    started := false, running := false, startCount := 0 }

/-- Small-step semantics of N threads running `EnsureRunning` on one
container name, in the success scenario of the spec (the container, once
started, eventually reports running; no stop occurs). Thread steps follow
manager.go: a status check outside the lock, `getLock`/`Lock`, the
double-check under the lock, `StartContainer`, the 500 ms poll loop, and
the deferred `Unlock`; `envRun` is the runtime asynchronously bringing the
started container up. -/
inductive EStep : CState → CState → Prop where
  | checkRun (s : CState) (i : Nat) :
      s.pcs.get? i = some PC.checkStatus → s.running = true →
      EStep s { s with pcs := setPC s.pcs i PC.done }
  | checkStopped (s : CState) (i : Nat) :
      s.pcs.get? i = some PC.checkStatus → s.running = false →
      EStep s { s with pcs := setPC s.pcs i PC.tryLock }
  | acquire (s : CState) (i : Nat) :
      s.pcs.get? i = some PC.tryLock → s.lockOwner = none →
      EStep s
        { s with pcs := setPC s.pcs i PC.doubleCheck, lockOwner := some i }
  | dcRun (s : CState) (i : Nat) :
      s.pcs.get? i = some PC.doubleCheck → s.running = true →
      EStep s { s with pcs := setPC s.pcs i PC.unlock }
  | dcStopped (s : CState) (i : Nat) :
      s.pcs.get? i = some PC.doubleCheck → s.running = false →
      EStep s { s with pcs := setPC s.pcs i PC.doStart }
  | start (s : CState) (i : Nat) :
      s.pcs.get? i = some PC.doStart →
      EStep s
        { s with
          pcs := setPC s.pcs i PC.poll,
          started := true,
          startCount := s.startCount + 1 }
  | pollRun (s : CState) (i : Nat) :
      s.pcs.get? i = some PC.poll → s.running = true →
      EStep s { s with pcs := setPC s.pcs i PC.unlock }
  | release (s : CState) (i : Nat) :
      s.pcs.get? i = some PC.unlock → s.lockOwner = some i →
      EStep s
        { s with pcs := setPC s.pcs i PC.done, lockOwner := none }
  | envRun (s : CState) :
      s.started = true →
      EStep s { s with running := true }

/-- States reachable by `n` concurrent `EnsureRunning` invocations on a
stopped container. -/
def CReachable (n : Nat) (s : CState) : Prop :=
  Relation.ReflTransGen EStep (initState n) s

/-- Thread `i` is inside the locked critical section. -/
def inCS (s : CState) (i : Nat) : Prop :=
  s.pcs.get? i = some PC.doubleCheck ∨ s.pcs.get? i = some PC.doStart ∨
  s.pcs.get? i = some PC.poll ∨ s.pcs.get? i = some PC.unlock

/-- Thread `i` has issued `StartContainer` and not yet completed the wait:
a start is in flight on this thread. -/
def startInFlight (s : CState) (i : Nat) : Prop :=
  s.pcs.get? i = some PC.doStart ∨ s.pcs.get? i = some PC.poll

/-- Inductive invariant of the concurrent `EnsureRunning` model. -/
def CInv (s : CState) : Prop :=
  (∀ i, inCS s i → s.lockOwner = some i) ∧
  s.startCount ≤ 1 ∧
  (s.started = true ↔ s.startCount ≠ 0) ∧
  (s.running = true → s.started = true) ∧
  (∀ i, s.pcs.get? i = some PC.doStart → s.started = false) ∧
  (s.started = true → s.running = false →
    ∃ i, s.pcs.get? i = some PC.poll ∧ s.lockOwner = some i) ∧
  (∀ i, s.pcs.get? i = some PC.unlock → s.running = true) ∧
  (PC.done ∈ s.pcs → s.running = true)

/-- Terminal state of the one-thread wake demo: the thread completed,
the lock is free, the container runs, exactly one start was issued. -/
def demoFinal : CState :=
  { pcs := [PC.done], lockOwner := none, started := true, running := true,
    startCount := 1 }

/-! ## Theorems -/

/-- Claim C10: when a network name is configured, `GetContainerAddress`
returns the IP only from that named network, and errors whenever the
container is not attached to it or has an empty IP there — it never falls
back to another attached network. -/
theorem getContainerAddress_named_network_no_fallback
    (containerName network : String) (nets : List (String × String))
    (hnet : network ≠ "") :
    (∀ ip, lookupA nets network = some ip → ip ≠ "" →
      GetContainerAddress containerName nets network = .ok ip) ∧
    ((lookupA nets network = none ∨ lookupA nets network = some "") →
      ∃ msg, GetContainerAddress containerName nets network = .error msg) := by
  constructor
  · intro ip hlook hip
    unfold GetContainerAddress
    have hne : nets ≠ [] := by
      intro h; rw [h] at hlook; simp [lookupA] at hlook
    rw [if_neg (by simpa [List.length_eq_zero] using hne), if_pos hnet, hlook]
    simp [hip]
  · intro hcase
    unfold GetContainerAddress
    by_cases hlen : nets.length = 0
    · exact ⟨_, by rw [if_pos hlen]⟩
    · rw [if_neg hlen, if_pos hnet]
      rcases hcase with h | h
      · rw [h]; exact ⟨_, rfl⟩
      · rw [h]; simp

/-- Witness for C10: a container attached to network "back" with a non-empty
IP still yields an error when the configured network is "front", and the
happy path returns the IP of the named network. -/
theorem getContainerAddress_named_network_no_fallback_witness :
    (∃ msg, GetContainerAddress "db" [("back", "172.18.0.2")] "front" =
      .error msg) ∧
    GetContainerAddress "db" [("front", "10.1.2.3"), ("back", "172.18.0.2")]
      "front" = .ok "10.1.2.3" := by
  refine ⟨(getContainerAddress_named_network_no_fallback "db"
    "front" [("back", "172.18.0.2")] (by decide)).2 (Or.inl (by decide)), ?_⟩
  exact (getContainerAddress_named_network_no_fallback "db" "front"
    [("front", "10.1.2.3"), ("back", "172.18.0.2")] (by decide)).1
    "10.1.2.3" (by decide) (by decide)

/-- Claim C3, counterexample: a request arriving with
`X-Forwarded-Proto: https` over a plain (non-TLS) connection leaves
`setForwardedHeaders` with `"http"` — the upstream value is NOT preserved,
refuting the claim that an existing value is kept unchanged. -/
theorem setForwardedHeaders_overwrites_proto_counterexample :
    (setForwardedHeaders
      { xForwardedFor := "", xRealIP := "", xForwardedProto := "https",
        xForwardedHost := "" } "203.0.113.9" false "app.localhost"
      ).xForwardedProto = "http" ∧ ("http" : String) ≠ "https" := by
  constructor
  · rfl
  · decide

/-- Claim C3 (amended): `setForwardedHeaders` always sets
`X-Forwarded-Proto` from the TLS flag of the inbound connection ("https"
when TLS, else "http"), overwriting any value the incoming request carried;
`X-Real-IP`, by contrast, is only set when absent. -/
theorem setForwardedHeaders_proto_from_tls (h : ProxyHeaders)
    (clientIP : String) (tls : Bool) (host : String) :
    (setForwardedHeaders h clientIP tls host).xForwardedProto =
      (if tls then "https" else "http") ∧
    (setForwardedHeaders h clientIP tls host).xRealIP =
      (if h.xRealIP = "" then clientIP else h.xRealIP) := by
  constructor <;> rfl

/-! ### Shared association-list lemmas -/

theorem lookupA_setEntry_self {α : Type} (m : List (String × α)) (k : String)
    (v : α) : lookupA (setEntry m k v) k = some v := by
  simp [setEntry, lookupA]

theorem lookupA_delEntry_self {α : Type} (m : List (String × α)) (k : String) :
    lookupA (delEntry m k) k = none := by
  induction m with
  | nil => rfl
  | cons p rest ih =>
    by_cases h : p.1 = k
    · simpa [delEntry, h] using ih
    · simpa [delEntry, lookupA, h] using ih

theorem lookupA_delEntry_ne {α : Type} (m : List (String × α)) (k n : String)
    (h : n ≠ k) : lookupA (delEntry m k) n = lookupA m n := by
  induction m with
  | nil => rfl
  | cons p rest ih =>
    by_cases hp : p.1 = k
    · simp [delEntry, lookupA, hp, Ne.symm h, ih]
    · by_cases hn : p.1 = n
      · simp [delEntry, lookupA, hp, hn, h]
      · simp [delEntry, lookupA, hp, hn, ih]

/-! ### Claim C1 -/

/-- Claim C1: in the Ensure-running readiness-probe step, a configuration
with a non-empty `health_path` is probed by exactly one HTTP GET probe on
that path, and a configuration with an empty `health_path` by exactly one
TCP dial probe; an IP-resolution error yields no probe and a `failed`
state, and a successful probe yields the `running` state. -/
theorem probeReady_dispatch (cfg : ContainerConfig)
    (ipRes : Except String String) (probeSucceeds : ProbeCall → Bool) :
    (∀ ip, ipRes = .ok ip → cfg.healthPath ≠ "" →
      (probeReady cfg ipRes probeSucceeds).2.1 =
        [ProbeCall.http ip cfg.targetPort cfg.healthPath]) ∧
    (∀ ip, ipRes = .ok ip → cfg.healthPath = "" →
      (probeReady cfg ipRes probeSucceeds).2.1 =
        [ProbeCall.tcp ip cfg.targetPort]) ∧
    (∀ e, ipRes = .error e → (probeReady cfg ipRes probeSucceeds).2.1 = [] ∧
      (probeReady cfg ipRes probeSucceeds).2.2.status = .failed) ∧
    (∀ c, c ∈ (probeReady cfg ipRes probeSucceeds).2.1 →
      probeSucceeds c = true →
      (probeReady cfg ipRes probeSucceeds).2.2.status = .running) := by
  refine ⟨?_, ?_, ?_, ?_⟩
  · intro ip hip hne; subst hip; simp [probeReady, hne]
    by_cases hp : probeSucceeds (ProbeCall.http ip cfg.targetPort cfg.healthPath)
    · simp [hp]
    · simp [hp]
  · intro ip hip hemp; subst hip; simp [probeReady, hemp]
    by_cases hp : probeSucceeds (ProbeCall.tcp ip cfg.targetPort)
    · simp [hp]
    · simp [hp]
  · intro e he; subst he; simp [probeReady]
  · intro c hc hsc
    cases ipRes with
    | error e => simp [probeReady] at hc
    | ok ip =>
      by_cases hne : cfg.healthPath ≠ ""
      · simp [probeReady, hne] at hc ⊢
        by_cases hp : probeSucceeds (ProbeCall.http ip cfg.targetPort cfg.healthPath)
        · simp [hp]
        · simp [hp] at hc; rw [hc] at hsc; rw [hsc] at hp; exact absurd rfl hp
      · push_neg at hne
        simp [probeReady, hne] at hc ⊢
        by_cases hp : probeSucceeds (ProbeCall.tcp ip cfg.targetPort)
        · simp [hp]
        · simp [hp] at hc; rw [hc] at hsc; rw [hsc] at hp; exact absurd rfl hp

/-- Witness for C1: a config with `health_path = "/healthz"` issues the HTTP
probe and a config with empty `health_path` issues the TCP probe. -/
theorem probeReady_dispatch_witness :
    (probeReady
      { name := "my-app", host := "app.localhost", targetPort := "3000",
        startTimeout := 60000000000, idleTimeout := 0, network := "",
        redirectPath := "/", icon := "docker", healthPath := "/healthz",
        dependsOn := [] } (.ok "10.0.0.5") (fun _ => true)).2.1 =
      [ProbeCall.http "10.0.0.5" "3000" "/healthz"] ∧
    (probeReady
      { name := "raw-app", host := "raw.localhost", targetPort := "80",
        startTimeout := 60000000000, idleTimeout := 0, network := "",
        redirectPath := "/", icon := "docker", healthPath := "",
        dependsOn := [] } (.ok "10.0.0.6") (fun _ => true)).2.1 =
      [ProbeCall.tcp "10.0.0.6" "80"] := by
  constructor
  · exact (probeReady_dispatch
      { name := "my-app", host := "app.localhost", targetPort := "3000",
        startTimeout := 60000000000, idleTimeout := 0, network := "",
        redirectPath := "/", icon := "docker", healthPath := "/healthz",
        dependsOn := [] } (.ok "10.0.0.5") (fun _ => true)).1 "10.0.0.5" rfl
      (by decide)
  · exact (probeReady_dispatch
      { name := "raw-app", host := "raw.localhost", targetPort := "80",
        startTimeout := 60000000000, idleTimeout := 0, network := "",
        redirectPath := "/", icon := "docker", healthPath := "",
        dependsOn := [] } (.ok "10.0.0.6") (fun _ => true)).2.1 "10.0.0.6" rfl
      rfl

/-! ### Claim C2 -/

/-- Claim C2, failing input: merging a static catalog that contains a group
with an empty dynamic list keeps the static workloads and global settings
but returns an empty `groups` field — `mergeConfigs` never copies
`staticConfig.Groups`, so the merged view does not contain the static
catalog's groups as the claim (and spec §4.3) state. -/
theorem mergeConfigs_drops_static_groups :
    (mergeConfigs sampleStaticConfig []).groups = [] ∧
    sampleStaticConfig.groups ≠ [] ∧
    (mergeConfigs sampleStaticConfig []).containers =
      sampleStaticConfig.containers ∧
    (mergeConfigs sampleStaticConfig []).gateway =
      sampleStaticConfig.gateway := by
  exact ⟨rfl, by simp [sampleStaticConfig], rfl, rfl⟩

/-! ### Claim C4 -/

/-- Claim C4: in one idle-sweeper pass, a workload is stopped only if its
`idle_timeout` is positive, an activity timestamp is recorded for it, at
least `idle_timeout` has elapsed since that timestamp, and its runtime
status is `"running"`; the start-state map loses exactly the entries of
successfully stopped workloads; the last-seen map is never modified. -/
theorem idle_sweeper_stop_conditions (cfgs : List ContainerConfig)
    (lastSeen : List (String × Int)) (startStates : List (String × StartState))
    (docker : List (String × String)) (stopOk : List String) (now : Int)
    (hnn : ∀ cfg ∈ cfgs, 0 ≤ cfg.idleTimeout) :
    (∀ name ∈ (checkIdle cfgs lastSeen startStates docker stopOk now).stopped,
      ∃ cfg ∈ cfgs, cfg.name = name ∧ 0 < cfg.idleTimeout ∧
        ∃ last, lookupA lastSeen name = some last ∧
          cfg.idleTimeout ≤ now - last ∧
          lookupA docker name = some "running") ∧
    (∀ n, lookupA
        (checkIdle cfgs lastSeen startStates docker stopOk now).startStates n =
      if n ∈ (checkIdle cfgs lastSeen startStates docker stopOk now).stopped ∧
          n ∈ stopOk then none
      else lookupA startStates n) ∧
    (checkIdle cfgs lastSeen startStates docker stopOk now).lastSeen =
      lastSeen := by
  induction cfgs generalizing startStates with
  | nil =>
    refine ⟨by intro name h; simp [checkIdle] at h, ?_, rfl⟩
    intro n
    have : ¬ (n ∈ (checkIdle [] lastSeen startStates docker stopOk now).stopped
        ∧ n ∈ stopOk) := by
      intro ⟨h1, _⟩; simp [checkIdle] at h1
    rw [if_neg this]; rfl
  | cons cfg rest ih =>
    have hnn' : ∀ c ∈ rest, 0 ≤ c.idleTimeout := fun c hc =>
      hnn c (List.mem_cons_of_mem _ hc)
    have hnn0 : 0 ≤ cfg.idleTimeout := hnn cfg (List.mem_cons_self _ _)
    by_cases h0 : cfg.idleTimeout = 0
    · have hred : checkIdle (cfg :: rest) lastSeen startStates docker stopOk now
          = checkIdle rest lastSeen startStates docker stopOk now := by
        simp [checkIdle, h0]
      rw [hred]
      obtain ⟨ha, hb, hc⟩ := ih startStates hnn'
      exact ⟨fun name hname => by
        obtain ⟨c, hc1, hc2⟩ := ha name hname
        exact ⟨c, List.mem_cons_of_mem _ hc1, hc2⟩, hb, hc⟩
    · match hlast : lookupA lastSeen cfg.name with
      | none =>
        have hred : checkIdle (cfg :: rest) lastSeen startStates docker stopOk
            now = checkIdle rest lastSeen startStates docker stopOk now := by
          simp [checkIdle, h0, hlast]
        rw [hred]
        obtain ⟨ha, hb, hc⟩ := ih startStates hnn'
        exact ⟨fun name hname => by
          obtain ⟨c, hc1, hc2⟩ := ha name hname
          exact ⟨c, List.mem_cons_of_mem _ hc1, hc2⟩, hb, hc⟩
      | some last =>
        by_cases hfresh : now - last < cfg.idleTimeout
        · have hred : checkIdle (cfg :: rest) lastSeen startStates docker
              stopOk now = checkIdle rest lastSeen startStates docker stopOk
              now := by
            simp [checkIdle, h0, hlast, hfresh]
          rw [hred]
          obtain ⟨ha, hb, hc⟩ := ih startStates hnn'
          exact ⟨fun name hname => by
            obtain ⟨c, hc1, hc2⟩ := ha name hname
            exact ⟨c, List.mem_cons_of_mem _ hc1, hc2⟩, hb, hc⟩
        · match hdock : lookupA docker cfg.name with
          | none =>
            have hred : checkIdle (cfg :: rest) lastSeen startStates docker
                stopOk now = checkIdle rest lastSeen startStates docker stopOk
                now := by
              simp [checkIdle, h0, hlast, hfresh, hdock]
            rw [hred]
            obtain ⟨ha, hb, hc⟩ := ih startStates hnn'
            exact ⟨fun name hname => by
              obtain ⟨c, hc1, hc2⟩ := ha name hname
              exact ⟨c, List.mem_cons_of_mem _ hc1, hc2⟩, hb, hc⟩
          | some status =>
            by_cases hrun : status = "running"
            · subst hrun
              by_cases hok : stopOk.contains cfg.name
              · have hokm : cfg.name ∈ stopOk := by simpa using hok
                have hred : checkIdle (cfg :: rest) lastSeen startStates docker
                    stopOk now =
                    { stopped := cfg.name :: (checkIdle rest lastSeen
                        (delEntry startStates cfg.name) docker stopOk
                        now).stopped,
                      startStates := (checkIdle rest lastSeen
                        (delEntry startStates cfg.name) docker stopOk
                        now).startStates,
                      lastSeen := (checkIdle rest lastSeen
                        (delEntry startStates cfg.name) docker stopOk
                        now).lastSeen } := by
                  simp [checkIdle, h0, hlast, hfresh, hdock, hokm]
                rw [hred]
                obtain ⟨ha, hb, hc⟩ := ih (delEntry startStates cfg.name) hnn'
                refine ⟨?_, ?_, hc⟩
                · intro name hname
                  rcases List.mem_cons.mp hname with heq | hmem
                  · exact ⟨cfg, List.mem_cons_self _ _, heq.symm,
                      lt_of_le_of_ne hnn0 (Ne.symm h0), last,
                      heq ▸ hlast, le_of_not_lt hfresh, heq ▸ hdock⟩
                  · obtain ⟨c, hc1, hc2⟩ := ha name hmem
                    exact ⟨c, List.mem_cons_of_mem _ hc1, hc2⟩
                · intro n
                  rw [hb n]
                  by_cases hmem : n ∈ (checkIdle rest lastSeen
                      (delEntry startStates cfg.name) docker stopOk
                      now).stopped ∧ n ∈ stopOk
                  · rw [if_pos hmem, if_pos ⟨List.mem_cons_of_mem _ hmem.1,
                      hmem.2⟩]
                  · rw [if_neg hmem]
                    by_cases hn : n = cfg.name
                    · rw [hn, if_pos ⟨List.mem_cons_self _ _, hokm⟩]
                      exact lookupA_delEntry_self startStates cfg.name
                    · rw [lookupA_delEntry_ne startStates cfg.name n hn]
                      have : ¬ (n ∈ cfg.name :: (checkIdle rest lastSeen
                          (delEntry startStates cfg.name) docker stopOk
                          now).stopped ∧ n ∈ stopOk) := by
                        intro ⟨h1, h2⟩
                        rcases List.mem_cons.mp h1 with he | hm
                        · exact hn he
                        · exact hmem ⟨hm, h2⟩
                      rw [if_neg this]
              · have hnotok : cfg.name ∉ stopOk := by simpa using hok
                have hred : checkIdle (cfg :: rest) lastSeen startStates docker
                    stopOk now =
                    { stopped := cfg.name :: (checkIdle rest lastSeen
                        startStates docker stopOk now).stopped,
                      startStates := (checkIdle rest lastSeen startStates
                        docker stopOk now).startStates,
                      lastSeen := (checkIdle rest lastSeen startStates docker
                        stopOk now).lastSeen } := by
                  simp [checkIdle, h0, hlast, hfresh, hdock, hnotok]
                rw [hred]
                obtain ⟨ha, hb, hc⟩ := ih startStates hnn'
                refine ⟨?_, ?_, hc⟩
                · intro name hname
                  rcases List.mem_cons.mp hname with heq | hmem
                  · exact ⟨cfg, List.mem_cons_self _ _, heq.symm,
                      lt_of_le_of_ne hnn0 (Ne.symm h0), last,
                      heq ▸ hlast, le_of_not_lt hfresh, heq ▸ hdock⟩
                  · obtain ⟨c, hc1, hc2⟩ := ha name hmem
                    exact ⟨c, List.mem_cons_of_mem _ hc1, hc2⟩
                · intro n
                  rw [hb n]
                  by_cases hmem : n ∈ (checkIdle rest lastSeen startStates
                      docker stopOk now).stopped ∧ n ∈ stopOk
                  · rw [if_pos hmem,
                      if_pos ⟨List.mem_cons_of_mem _ hmem.1, hmem.2⟩]
                  · rw [if_neg hmem]
                    have : ¬ (n ∈ cfg.name :: (checkIdle rest lastSeen
                        startStates docker stopOk now).stopped ∧
                        n ∈ stopOk) := by
                      intro ⟨h1, h2⟩
                      rcases List.mem_cons.mp h1 with he | hm
                      · exact hnotok (he ▸ h2)
                      · exact hmem ⟨hm, h2⟩
                    rw [if_neg this]
            · have hred : checkIdle (cfg :: rest) lastSeen startStates docker
                  stopOk now = checkIdle rest lastSeen startStates docker
                  stopOk now := by
                simp [checkIdle, h0, hlast, hfresh, hdock, hrun]
              rw [hred]
              obtain ⟨ha, hb, hc⟩ := ih startStates hnn'
              exact ⟨fun name hname => by
                obtain ⟨c, hc1, hc2⟩ := ha name hname
                exact ⟨c, List.mem_cons_of_mem _ hc1, hc2⟩, hb, hc⟩

/-- Witness for C4: a sweep over one workload with `idle_timeout = 60 s`,
last activity 61 s ago, runtime status running and a succeeding stop,
stops it and deletes its start-state entry while keeping last-seen. -/
theorem idle_sweeper_stop_conditions_witness :
    (0 : Int) ≤ 60000000000 ∧
    (checkIdle
      [{ name := "idle-app", host := "idle.localhost", targetPort := "80",
         startTimeout := 60000000000, idleTimeout := 60000000000,
         network := "", redirectPath := "/", icon := "docker",
         healthPath := "", dependsOn := [] }]
      [("idle-app", 0)]
      [("idle-app", { status := StartStatus.running, err := "" })]
      [("idle-app", "running")] ["idle-app"] 61000000000).lastSeen =
      [("idle-app", 0)] ∧
    lookupA (checkIdle
      [{ name := "idle-app", host := "idle.localhost", targetPort := "80",
         startTimeout := 60000000000, idleTimeout := 60000000000,
         network := "", redirectPath := "/", icon := "docker",
         healthPath := "", dependsOn := [] }]
      [("idle-app", 0)]
      [("idle-app", { status := StartStatus.running, err := "" })]
      [("idle-app", "running")] ["idle-app"] 61000000000).startStates
      "idle-app" = none := by
  refine ⟨by decide, ?_, ?_⟩
  · exact (idle_sweeper_stop_conditions
      [{ name := "idle-app", host := "idle.localhost", targetPort := "80",
         startTimeout := 60000000000, idleTimeout := 60000000000,
         network := "", redirectPath := "/", icon := "docker",
         healthPath := "", dependsOn := [] }]
      [("idle-app", 0)]
      [("idle-app", { status := StartStatus.running, err := "" })]
      [("idle-app", "running")] ["idle-app"] 61000000000
      (by intro c hc; simp at hc; rw [hc]; decide)).2.2
  · have h := (idle_sweeper_stop_conditions
      [{ name := "idle-app", host := "idle.localhost", targetPort := "80",
         startTimeout := 60000000000, idleTimeout := 60000000000,
         network := "", redirectPath := "/", icon := "docker",
         healthPath := "", dependsOn := [] }]
      [("idle-app", 0)]
      [("idle-app", { status := StartStatus.running, err := "" })]
      [("idle-app", "running")] ["idle-app"] 61000000000
      (by intro c hc; simp at hc; rw [hc]; decide)).2.1 "idle-app"
    rw [h, if_pos (by constructor <;> decide)]

/-! ### Claim C8 -/

theorem u64_add_sub_idx (c : Nat) (hc : c < U64MOD) :
    ((c + 1) % U64MOD + (U64MOD - 1)) % U64MOD = c := by
  have h : U64MOD = 18446744073709551616 := by norm_num [U64MOD]
  rw [h] at hc ⊢
  omega

theorem pick_counter (g : GroupConfig) (h2 : 2 ≤ g.containers.length)
    (k : Nat) : (lookupA (pickState g k) g.name).getD 0 = k % U64MOD := by
  induction k with
  | zero => simp [pickState, lookupA]
  | succ k ih =>
    have hn0 : ¬ g.containers.length = 0 := by omega
    have hn1 : ¬ g.containers.length = 1 := by omega
    show (lookupA (Pick (pickState g k) g).2 g.name).getD 0 = _
    simp only [Pick, if_neg hn0, if_neg hn1]
    rw [lookupA_setEntry_self]
    simp only [Option.getD_some]
    rw [ih, Nat.mod_add_mod]

theorem pickAt_eq (g : GroupConfig) (k : Nat)
    (h1 : 1 ≤ g.containers.length) :
    pickAt g k =
      g.containers.getD (((k - 1) % U64MOD) % g.containers.length) "" := by
  by_cases he : g.containers.length = 1
  · simp [pickAt, Pick, he, Nat.mod_one]
  · have h2 : 2 ≤ g.containers.length := by omega
    have hn0 : ¬ g.containers.length = 0 := by omega
    have hcount := pick_counter g h2 (k - 1)
    show (Pick (pickState g (k - 1)) g).1 = _
    simp only [Pick, if_neg hn0, if_neg he]
    rw [hcount, u64_add_sub_idx ((k - 1) % U64MOD)
      (Nat.mod_lt _ (by norm_num [U64MOD]))]

/-- Claim C8: the `k`-th call to `Pick` for a group with `n ≥ 1` members
(counting from 1, across the process lifetime) returns the member at index
`(k-1) mod n` computed through the unsigned 64-bit counter (which wraps at
`2^64`); for `k ≤ 2^64` this is exactly `(k-1) mod n`; a group with zero
members yields the empty string. -/
theorem groupRouter_pick_round_robin (g : GroupConfig) (k : Nat)
    (hk : 1 ≤ k) :
    (g.containers.length = 0 → pickAt g k = "") ∧
    (1 ≤ g.containers.length →
      pickAt g k =
        g.containers.getD (((k - 1) % U64MOD) % g.containers.length) "") ∧
    (1 ≤ g.containers.length → k ≤ U64MOD →
      pickAt g k = g.containers.getD ((k - 1) % g.containers.length) "") := by
  refine ⟨?_, pickAt_eq g k, ?_⟩
  · intro h0; simp [pickAt, Pick, h0]
  · intro h1 hle
    have hM : U64MOD = 18446744073709551616 := by norm_num [U64MOD]
    have hsmall : (k - 1) % U64MOD = k - 1 :=
      Nat.mod_eq_of_lt (by rw [hM]; rw [hM] at hle; omega)
    rw [pickAt_eq g k h1, hsmall]

/-- Witness for C8: for the three-member group of the round-robin scenario,
the first three picks return each member exactly once and the fourth pick
wraps to the first member again. -/
theorem groupRouter_pick_round_robin_witness :
    pickAt apiCluster 1 = "api-1" ∧ pickAt apiCluster 2 = "api-2" ∧
    pickAt apiCluster 3 = "api-3" ∧ pickAt apiCluster 4 = "api-1" := by
  refine ⟨?_, ?_, ?_, ?_⟩
  · have h := (groupRouter_pick_round_robin apiCluster 1 (by norm_num)).2.2
      (by simp [apiCluster]) (by norm_num [U64MOD])
    simpa [apiCluster] using h
  · have h := (groupRouter_pick_round_robin apiCluster 2 (by norm_num)).2.2
      (by simp [apiCluster]) (by norm_num [U64MOD])
    simpa [apiCluster] using h
  · have h := (groupRouter_pick_round_robin apiCluster 3 (by norm_num)).2.2
      (by simp [apiCluster]) (by norm_num [U64MOD])
    simpa [apiCluster] using h
  · have h := (groupRouter_pick_round_robin apiCluster 4 (by norm_num)).2.2
      (by simp [apiCluster]) (by norm_num [U64MOD])
    simpa [apiCluster] using h

/-! ### Claim C9 -/

theorem lookupA_eq_none_iff {α : Type} (l : List (String × α)) (x : String) :
    lookupA l x = none ↔ ∀ p ∈ l, p.1 ≠ x := by
  induction l with
  | nil => simp [lookupA]
  | cons q rest ih =>
    obtain ⟨a, b⟩ := q
    by_cases hq : a = x
    · simp only [lookupA, if_pos hq]
      constructor
      · intro h; exact absurd h (by simp)
      · intro h; exact absurd hq (h (a, b) (List.mem_cons_self _ _))
    · simp only [lookupA, if_neg hq]
      rw [ih]
      constructor
      · intro h p hp
        rcases List.mem_cons.mp hp with he | hm
        · rw [he]; exact hq
        · exact h p hm
      · intro h p hp
        exact h p (List.mem_cons_of_mem _ hp)

theorem lookupA_mem {α : Type} (l : List (String × α)) (x : String) (v : α) :
    lookupA l x = some v → (x, v) ∈ l := by
  induction l with
  | nil => intro h; simp [lookupA] at h
  | cons q rest ih =>
    obtain ⟨a, b⟩ := q
    intro h
    by_cases hq : a = x
    · simp [lookupA, hq] at h
      rw [h, hq]
      exact List.mem_cons_self _ _
    · simp [lookupA, hq] at h
      exact List.mem_cons_of_mem _ (ih h)

theorem mem_delEntry {α : Type} (m : List (String × α)) (k : String)
    (p : String × α) : p ∈ delEntry m k → p ∈ m ∧ p.1 ≠ k := by
  induction m with
  | nil => intro h; simp [delEntry] at h
  | cons q rest ih =>
    intro h
    by_cases hq : q.1 = k
    · rw [delEntry, if_pos hq] at h
      obtain ⟨h1, h2⟩ := ih h
      exact ⟨List.mem_cons_of_mem _ h1, h2⟩
    · rw [delEntry, if_neg hq] at h
      rcases List.mem_cons.mp h with he | hm
      · exact ⟨he ▸ List.mem_cons_self _ _, he ▸ hq⟩
      · obtain ⟨h1, h2⟩ := ih hm
        exact ⟨List.mem_cons_of_mem _ h1, h2⟩

theorem lookupA_setEntry_ne {α : Type} (m : List (String × α)) (k x : String)
    (v : α) (h : x ≠ k) : lookupA (setEntry m k v) x = lookupA m x := by
  show lookupA ((k, v) :: delEntry m k) x = lookupA m x
  rw [lookupA, if_neg (Ne.symm h)]
  exact lookupA_delEntry_ne m k x h

theorem Allow_admitted_state (I : Int) (st : List (String × Int)) (now : Int)
    (ip : String) : (Allow I st now ip).1 = true →
    (Allow I st now ip).2 = setEntry st ip now := by
  intro h
  cases hl : lookupA st ip with
  | none => simp [Allow, hl]
  | some last =>
    by_cases hle : I ≤ now - last
    · simp [Allow, hl, hle]
    · simp [Allow, hl, hle] at h

theorem Allow_denied_state (I : Int) (st : List (String × Int)) (now : Int)
    (ip : String) : ¬ (Allow I st now ip).1 = true →
    (Allow I st now ip).2 = st := by
  intro h
  cases hl : lookupA st ip with
  | none => simp [Allow, hl] at h
  | some last =>
    by_cases hle : I ≤ now - last
    · simp [Allow, hl, hle] at h
    · simp [Allow, hl, hle]

theorem Allow_true_iff (I : Int) (st : List (String × Int)) (now : Int)
    (ip : String) : (Allow I st now ip).1 = true ↔
    (lookupA st ip = none ∨
      ∃ last, lookupA st ip = some last ∧ I ≤ now - last) := by
  cases hl : lookupA st ip with
  | none => simp [Allow, hl]
  | some last =>
    by_cases hle : I ≤ now - last <;> simp [Allow, hl, hle]

/-- Claim C9: (i) an admitted `Allow` call stamps exactly `last_seen[ip]`
with the call time and leaves every other key unchanged, and a denied call
leaves the map untouched; (ii) the cleanup pass keeps exactly the entries
whose timestamp is not older than twice the minimum interval; (iii) across
any sequence of rate-limiter operations whose times lie between two admitted
calls for the same IP, the two admissions are at least one minimum interval
apart — within any window shorter than the interval at most one call per IP
is admitted. -/
theorem rateLimiter_allow_and_evict (I : Int) (hI : 0 < I) :
    (∀ st now ip,
      ((Allow I st now ip).1 = true →
        lookupA (Allow I st now ip).2 ip = some now ∧
        ∀ x, x ≠ ip → lookupA (Allow I st now ip).2 x = lookupA st x) ∧
      ((Allow I st now ip).1 = false → (Allow I st now ip).2 = st)) ∧
    (∀ st now p, p ∈ evictStale I st now ↔
      p ∈ st ∧ ¬ (p.2 < now - 2 * I)) ∧
    (∀ st t1 ip mid t2,
      (Allow I st t1 ip).1 = true →
      (∀ op ∈ mid, t1 ≤ rlOpTime op ∧ rlOpTime op ≤ t2) →
      (Allow I (runRL I (Allow I st t1 ip).2 mid) t2 ip).1 = true →
      t1 + I ≤ t2) := by
  refine ⟨?_, ?_, ?_⟩
  · intro st now ip
    constructor
    · intro hadm
      rw [Allow_admitted_state I st now ip hadm]
      refine ⟨lookupA_setEntry_self st ip now, ?_⟩
      intro x hx
      exact lookupA_setEntry_ne st ip x now hx
    · intro hden
      exact Allow_denied_state I st now ip (by rw [hden]; simp)
  · intro st now p
    simp [evictStale, List.mem_filter]
  · intro st t1 ip mid t2 h1 hmid h2
    have hstep : ∀ (ops : List RLOp) (s : List (String × Int)),
        (∀ op ∈ ops, t1 ≤ rlOpTime op ∧ rlOpTime op ≤ t2) →
        ((∀ p ∈ s, p.1 = ip → t1 ≤ p.2) ∧
          (lookupA s ip = none → t1 + 2 * I ≤ t2)) →
        ((∀ p ∈ runRL I s ops, p.1 = ip → t1 ≤ p.2) ∧
          (lookupA (runRL I s ops) ip = none → t1 + 2 * I ≤ t2)) := by
      intro ops
      induction ops with
      | nil => intro s _ hP; exact hP
      | cons op rest ih =>
        intro s hops hP
        have hops' : ∀ o ∈ rest, t1 ≤ rlOpTime o ∧ rlOpTime o ≤ t2 :=
          fun o ho => hops o (List.mem_cons_of_mem _ ho)
        have hop0 := hops op (List.mem_cons_self _ _)
        match op with
        | .allow u ip' =>
          show (∀ p ∈ runRL I (Allow I s u ip').2 rest, p.1 = ip → t1 ≤ p.2) ∧ _
          apply ih _ hops'
          by_cases hadm : (Allow I s u ip').1 = true
          · rw [Allow_admitted_state I s u ip' hadm]
            constructor
            · intro p hp hkey
              rcases List.mem_cons.mp hp with he | hm
              · rw [he]
                exact hop0.1
              · exact hP.1 p (mem_delEntry s ip' p hm).1 hkey
            · intro hnone
              by_cases hipeq : ip' = ip
              · rw [hipeq, lookupA_setEntry_self] at hnone
                exact absurd hnone (by simp)
              · rw [lookupA_setEntry_ne s ip' ip u
                  (fun hc => hipeq hc.symm)] at hnone
                exact hP.2 hnone
          · rw [Allow_denied_state I s u ip' hadm]
            exact hP
        | .evict u =>
          show (∀ p ∈ runRL I (evictStale I s u) rest, p.1 = ip → t1 ≤ p.2) ∧ _
          apply ih _ hops'
          constructor
          · intro p hp hkey
            exact hP.1 p (List.mem_filter.mp hp).1 hkey
          · intro hnone
            cases hsl : lookupA s ip with
            | none => exact hP.2 hsl
            | some tv =>
              have hpm : (ip, tv) ∈ s := lookupA_mem s ip tv hsl
              have ht1 : t1 ≤ tv := hP.1 (ip, tv) hpm rfl
              by_cases hstale : tv < u - 2 * I
              · have hu : u ≤ t2 := by
                  simpa [rlOpTime] using hop0.2
                omega
              · have hkeep : (ip, tv) ∈ evictStale I s u := by
                  rw [evictStale, List.mem_filter]
                  exact ⟨hpm, by simpa using hstale⟩
                have := (lookupA_eq_none_iff (evictStale I s u) ip).mp hnone
                  (ip, tv) hkeep
                exact absurd rfl this
    have hP1 : (∀ p ∈ (Allow I st t1 ip).2, p.1 = ip → t1 ≤ p.2) ∧
        (lookupA (Allow I st t1 ip).2 ip = none → t1 + 2 * I ≤ t2) := by
      rw [Allow_admitted_state I st t1 ip h1]
      constructor
      · intro p hp hkey
        rcases List.mem_cons.mp hp with he | hm
        · rw [he]
        · exact absurd (mem_delEntry st ip p hm).2 (by simp [hkey])
      · intro hnone
        rw [lookupA_setEntry_self] at hnone
        exact absurd hnone (by simp)
    have hPf := hstep mid (Allow I st t1 ip).2 hmid hP1
    cases hfl : lookupA (runRL I (Allow I st t1 ip).2 mid) ip with
    | none =>
      have := hPf.2 hfl
      omega
    | some tv =>
      have hmem := lookupA_mem _ _ _ hfl
      have ht1 := hPf.1 (ip, tv) hmem rfl
      have hadm : I ≤ t2 - tv := by
        rcases (Allow_true_iff I (runRL I (Allow I st t1 ip).2 mid) t2
            ip).mp h2 with hn | ⟨last, hl, hle⟩
        · rw [hfl] at hn
          exact absurd hn (by simp)
        · rw [hfl] at hl
          injection hl with heq
          omega
      omega

/-- Witness for C9: with a 1-second interval, an admission at t = 0 followed
(with no intervening operations) by an admission at t = 1 s satisfies the
one-interval spacing bound. -/
theorem rateLimiter_allow_and_evict_witness :
    (0 : Int) < 1000000000 ∧
    (Allow 1000000000 [] 0 "203.0.113.9").1 = true ∧
    (Allow 1000000000
      (runRL 1000000000 (Allow 1000000000 [] 0 "203.0.113.9").2 [])
      1000000000 "203.0.113.9").1 = true ∧
    (0 : Int) + 1000000000 ≤ 1000000000 := by
  refine ⟨by decide, by decide, by decide, ?_⟩
  exact (rateLimiter_allow_and_evict 1000000000 (by decide)).2.2
    [] 0 "203.0.113.9" [] 1000000000 (by decide)
    (by intro op hop; simp at hop) (by decide)

/-! ### Claim C6 -/

theorem checkDeps_ok (nameSet : List String) (n : String) (deps : List String)
    (h : ∀ d ∈ deps, d ∈ nameSet ∧ d ≠ n) :
    checkDeps nameSet n deps = .ok () := by
  induction deps with
  | nil => rfl
  | cons d ds ih =>
    have hd := h d (List.mem_cons_self _ _)
    rw [checkDeps, if_neg (by simp [hd.1]), if_neg hd.2]
    exact ih (fun x hx => h x (List.mem_cons_of_mem _ hx))

theorem checkMembers_ok (nameSet : List String) (gname : String)
    (ms : List String) (h : ∀ m ∈ ms, m ∈ nameSet) :
    checkMembers nameSet gname ms = .ok () := by
  induction ms with
  | nil => rfl
  | cons m rest ih =>
    rw [checkMembers, if_neg (by simp [h m (List.mem_cons_self _ _)])]
    exact ih (fun x hx => h x (List.mem_cons_of_mem _ hx))

theorem validateCtrs_ok_hosts (nameSet gm dt : List String)
    (ctrs : List ContainerConfig) :
    ∀ i sn sh sn2 sh2,
      validateCtrs nameSet gm dt ctrs i sn sh = .ok (sn2, sh2) →
      sh2 = sh ++ (ctrs.map (fun c => c.host)).filter (fun h => h ≠ "") ∧
      (sh.Nodup → sh2.Nodup) := by
  induction ctrs with
  | nil =>
    intro i sn sh sn2 sh2 h
    rw [validateCtrs] at h
    simp at h
    exact ⟨by simp [h.2.symm], fun hn => h.2 ▸ hn⟩
  | cons ctr rest ih =>
    intro i sn sh sn2 sh2 h
    rw [validateCtrs] at h
    split_ifs at h with h1 h2 h3 h4 h5 h6
    · cases hcd : checkDeps nameSet ctr.name ctr.dependsOn with
      | error e => rw [hcd] at h; simp at h
      | ok u =>
        rw [hcd] at h
        obtain ⟨e1, e2⟩ := ih (i + 1) (sn ++ [ctr.name]) (sh ++ [ctr.host])
          sn2 sh2 h
        constructor
        · rw [e1]
          simp [List.filter_cons, h5, List.append_assoc]
        · intro hn
          apply e2
          simp [List.nodup_append, hn, h6]
    · cases hcd : checkDeps nameSet ctr.name ctr.dependsOn with
      | error e => rw [hcd] at h; simp at h
      | ok u =>
        rw [hcd] at h
        obtain ⟨e1, e2⟩ := ih (i + 1) (sn ++ [ctr.name]) sh sn2 sh2 h
        push_neg at h5
        constructor
        · rw [e1]
          simp [List.filter_cons, h5]
        · exact e2

theorem validateCtrs_ok_of (nameSet gm dt : List String)
    (ctrs : List ContainerConfig) :
    ∀ i sn sh,
      (∀ ctr ∈ ctrs, CtrPre nameSet gm dt ctr) →
      (sn ++ ctrs.map (fun c => c.name)).Nodup →
      (sh ++ (ctrs.map (fun c => c.host)).filter (fun h => h ≠ "")).Nodup →
      ∃ r, validateCtrs nameSet gm dt ctrs i sn sh = .ok r := by
  induction ctrs with
  | nil => intro i sn sh _ _ _; exact ⟨(sn, sh), rfl⟩
  | cons ctr rest ih =>
    intro i sn sh hpre hnames hhosts
    have hp0 := hpre ctr (List.mem_cons_self _ _)
    have hc1 : ¬ ctr.name = "" := hp0.1
    have hc2 : ¬ (ctr.host = "" ∧ ctr.name ∉ gm ∧ ctr.name ∉ dt) := by
      rintro ⟨he, hg, hd⟩
      rcases hp0.2.2.1 he with hx | hx
      · exact hg hx
      · exact hd hx
    have hc3 : ¬ ctr.targetPort = "" := hp0.2.1
    have hc4 : ctr.name ∉ sn := by
      have hd := (List.nodup_append.mp hnames).2.2
      intro hin
      exact hd hin (by simp)
    have hcd := checkDeps_ok nameSet ctr.name ctr.dependsOn hp0.2.2.2
    have hnames' : ((sn ++ [ctr.name]) ++ rest.map (fun c => c.name)).Nodup := by
      rw [← List.append_cons]
      simpa using hnames
    by_cases hh : ctr.host ≠ ""
    · have hfc : ((ctr :: rest).map (fun c => c.host)).filter
          (fun h => h ≠ "") =
          ctr.host :: (rest.map (fun c => c.host)).filter (fun h => h ≠ "") := by
        simp [List.filter_cons, hh]
      rw [hfc] at hhosts
      have hnotin : ctr.host ∉ sh := by
        have hd := (List.nodup_append.mp hhosts).2.2
        intro hin
        exact hd hin (by simp)
      have hhosts' : ((sh ++ [ctr.host]) ++
          (rest.map (fun c => c.host)).filter (fun h => h ≠ "")).Nodup := by
        rw [← List.append_cons]
        exact hhosts
      rw [validateCtrs, if_neg hc1, if_neg hc2, if_neg hc3, if_neg hc4,
        if_pos hh, if_neg hnotin, hcd]
      exact ih (i + 1) (sn ++ [ctr.name]) (sh ++ [ctr.host])
        (fun x hx => hpre x (List.mem_cons_of_mem _ hx)) hnames' hhosts'
    · have hfc : ((ctr :: rest).map (fun c => c.host)).filter
          (fun h => h ≠ "") =
          (rest.map (fun c => c.host)).filter (fun h => h ≠ "") := by
        simp [List.filter_cons, hh]
      rw [hfc] at hhosts
      rw [validateCtrs, if_neg hc1, if_neg hc2, if_neg hc3, if_neg hc4,
        if_neg hh, hcd]
      exact ih (i + 1) (sn ++ [ctr.name]) sh
        (fun x hx => hpre x (List.mem_cons_of_mem _ hx)) hnames' hhosts

theorem validateCtrs_dup_error (nameSet gm dt : List String)
    (ctrs : List ContainerConfig) :
    ∀ i sn sh,
      (∀ ctr ∈ ctrs, CtrPre nameSet gm dt ctr) →
      (sn ++ ctrs.map (fun c => c.name)).Nodup →
      sh.Nodup →
      ¬ (sh ++ (ctrs.map (fun c => c.host)).filter (fun h => h ≠ "")).Nodup →
      ∃ msg h, validateCtrs nameSet gm dt ctrs i sn sh = .error msg ∧
        h ≠ "" ∧
        2 ≤ (sh ++ (ctrs.map (fun c => c.host)).filter
          (fun h => h ≠ "")).count h ∧
        ∃ p q, msg = p ++ h ++ q := by
  induction ctrs with
  | nil =>
    intro i sn sh _ _ hshn hdup
    exact absurd (by simpa using hshn) hdup
  | cons ctr rest ih =>
    intro i sn sh hpre hnames hshn hdup
    have hp0 := hpre ctr (List.mem_cons_self _ _)
    have hc1 : ¬ ctr.name = "" := hp0.1
    have hc2 : ¬ (ctr.host = "" ∧ ctr.name ∉ gm ∧ ctr.name ∉ dt) := by
      rintro ⟨he, hg, hd⟩
      rcases hp0.2.2.1 he with hx | hx
      · exact hg hx
      · exact hd hx
    have hc3 : ¬ ctr.targetPort = "" := hp0.2.1
    have hc4 : ctr.name ∉ sn := by
      have hd := (List.nodup_append.mp hnames).2.2
      intro hin
      exact hd hin (by simp)
    have hcd := checkDeps_ok nameSet ctr.name ctr.dependsOn hp0.2.2.2
    have hnames' : ((sn ++ [ctr.name]) ++ rest.map (fun c => c.name)).Nodup := by
      rw [← List.append_cons]
      simpa using hnames
    by_cases hh : ctr.host ≠ ""
    · have hfc : ((ctr :: rest).map (fun c => c.host)).filter
          (fun h => h ≠ "") =
          ctr.host :: (rest.map (fun c => c.host)).filter (fun h => h ≠ "") := by
        simp [List.filter_cons, hh]
      rw [hfc] at hdup ⊢
      by_cases hin : ctr.host ∈ sh
      · refine ⟨"duplicate host mapped: \"" ++ ctr.host ++
          "\" (in container \"" ++ ctr.name ++ "\")", ctr.host, ?_, hh, ?_, ?_⟩
        · rw [validateCtrs, if_neg hc1, if_neg hc2, if_neg hc3, if_neg hc4,
            if_pos hh, if_pos hin]
        · have h1 : 0 < sh.count ctr.host := List.count_pos_iff.mpr hin
          rw [List.count_append, List.count_cons_self]
          omega
        · exact ⟨"duplicate host mapped: \"",
            "\" (in container \"" ++ ctr.name ++ "\")",
            by simp [String.append_assoc]⟩
      · have hshn' : (sh ++ [ctr.host]).Nodup := by
          simp [List.nodup_append, hshn, hin]
        have hdup' : ¬ ((sh ++ [ctr.host]) ++
            (rest.map (fun c => c.host)).filter (fun h => h ≠ "")).Nodup := by
          rw [← List.append_cons]
          exact hdup
        obtain ⟨msg, hname, he, hne, hcount, hdecomp⟩ :=
          ih (i + 1) (sn ++ [ctr.name]) (sh ++ [ctr.host])
            (fun x hx => hpre x (List.mem_cons_of_mem _ hx)) hnames' hshn' hdup'
        refine ⟨msg, hname, ?_, hne, ?_, hdecomp⟩
        · rw [validateCtrs, if_neg hc1, if_neg hc2, if_neg hc3, if_neg hc4,
            if_pos hh, if_neg hin, hcd]
          exact he
        · rw [← List.append_cons] at hcount
          exact hcount
    · have hfc : ((ctr :: rest).map (fun c => c.host)).filter
          (fun h => h ≠ "") =
          (rest.map (fun c => c.host)).filter (fun h => h ≠ "") := by
        simp [List.filter_cons, hh]
      rw [hfc] at hdup ⊢
      obtain ⟨msg, hname, he, hne, hcount, hdecomp⟩ :=
        ih (i + 1) (sn ++ [ctr.name]) sh
          (fun x hx => hpre x (List.mem_cons_of_mem _ hx)) hnames' hshn hdup
      refine ⟨msg, hname, ?_, hne, hcount, hdecomp⟩
      rw [validateCtrs, if_neg hc1, if_neg hc2, if_neg hc3, if_neg hc4,
        if_neg hh, hcd]
      exact he

theorem validateGrps_ok_hosts (nameSet : List String)
    (grps : List GroupConfig) :
    ∀ i sgn sh,
      validateGrps nameSet grps i sgn sh = .ok () →
      sh.Nodup →
      (sh ++ grps.map (fun g => g.host)).Nodup ∧
      ∀ g ∈ grps, g.host ≠ "" := by
  induction grps with
  | nil =>
    intro i sgn sh _ hshn
    refine ⟨by simpa using hshn, ?_⟩
    intro g hg
    simp at hg
  | cons g rest ih =>
    intro i sgn sh h hshn
    rw [validateGrps] at h
    split_ifs at h with h1 h2 h3 h4 h5
    cases hcm : checkMembers nameSet g.name g.containers with
    | error e => rw [hcm] at h; simp at h
    | ok u =>
      rw [hcm] at h
      obtain ⟨hnd, hne⟩ := ih (i + 1) (sgn ++ [g.name]) (sh ++ [g.host]) h
        (by simp [List.nodup_append, hshn, h5])
      constructor
      · rw [← List.append_cons] at hnd
        exact hnd
      · intro x hx
        rcases List.mem_cons.mp hx with hxe | hxm
        · rw [hxe]; exact h2
        · exact hne x hxm

theorem validateGrps_dup_error (nameSet : List String)
    (grps : List GroupConfig) :
    ∀ i sgn sh,
      (∀ g ∈ grps, GrpPre nameSet g) →
      (sgn ++ grps.map (fun g => g.name)).Nodup →
      sh.Nodup →
      ¬ (sh ++ grps.map (fun g => g.host)).Nodup →
      ∃ msg h, validateGrps nameSet grps i sgn sh = .error msg ∧
        h ≠ "" ∧ 2 ≤ (sh ++ grps.map (fun g => g.host)).count h ∧
        ∃ p q, msg = p ++ h ++ q := by
  induction grps with
  | nil =>
    intro i sgn sh _ _ hshn hdup
    exact absurd (by simpa using hshn) hdup
  | cons g rest ih =>
    intro i sgn sh hpre hnames hshn hdup
    have hp0 := hpre g (List.mem_cons_self _ _)
    have hc1 : ¬ g.name = "" := hp0.1
    have hc2 : ¬ g.host = "" := hp0.2.1
    have hc3 : ¬ g.containers = [] := hp0.2.2.1
    have hc4 : g.name ∉ sgn := by
      have hd := (List.nodup_append.mp hnames).2.2
      intro hin
      exact hd hin (by simp)
    have hcm := checkMembers_ok nameSet g.name g.containers hp0.2.2.2
    have hnames' : ((sgn ++ [g.name]) ++ rest.map (fun x => x.name)).Nodup := by
      rw [← List.append_cons]
      simpa using hnames
    by_cases hin : g.host ∈ sh
    · refine ⟨"group \"" ++ g.name ++ "\" host \"" ++ g.host ++
        "\" conflicts with an existing host", g.host, ?_, hc2, ?_, ?_⟩
      · rw [validateGrps, if_neg hc1, if_neg hc2, if_neg hc3, if_neg hc4,
          if_pos hin]
      · have h1 : 0 < sh.count g.host := List.count_pos_iff.mpr hin
        rw [List.count_append]
        have h2 : 0 < (List.map (fun g => g.host) (g :: rest)).count g.host := by
          apply List.count_pos_iff.mpr
          simp
        omega
      · exact ⟨"group \"" ++ g.name ++ "\" host \"",
          "\" conflicts with an existing host",
          by simp [String.append_assoc]⟩
    · have hshn' : (sh ++ [g.host]).Nodup := by
        simp [List.nodup_append, hshn, hin]
      have hdup' : ¬ ((sh ++ [g.host]) ++
          rest.map (fun x => x.host)).Nodup := by
        rw [← List.append_cons]
        simpa using hdup
      obtain ⟨msg, hname, he, hne, hcount, hdecomp⟩ :=
        ih (i + 1) (sgn ++ [g.name]) (sh ++ [g.host])
          (fun x hx => hpre x (List.mem_cons_of_mem _ hx)) hnames' hshn' hdup'
      refine ⟨msg, hname, ?_, hne, ?_, hdecomp⟩
      · rw [validateGrps, if_neg hc1, if_neg hc2, if_neg hc3, if_neg hc4,
          if_neg hin, hcm]
        exact he
      · rw [← List.append_cons] at hcount
        simpa using hcount

/-- Claim C6: a configuration accepted by `Validate` has pairwise-distinct
non-empty host values across workloads and groups; a configuration with a
duplicated host is never accepted; and when the checks preceding host
comparison succeed, `Validate` reports an error whose message contains the
offending (duplicated) host. -/
theorem validate_host_uniqueness (c : GatewayConfig) :
    (Validate c = .ok () → (nonEmptyHosts c).Nodup) ∧
    (¬ (nonEmptyHosts c).Nodup → Validate c ≠ .ok ()) ∧
    (PreChecksOK c → ¬ (nonEmptyHosts c).Nodup →
      ∃ msg h, Validate c = .error msg ∧ h ≠ "" ∧
        2 ≤ (nonEmptyHosts c).count h ∧ ∃ p q, msg = p ++ h ++ q) := by
  have hmain : Validate c = .ok () → (nonEmptyHosts c).Nodup := by
    intro hok
    by_cases hport : c.gateway.port = ""
    · rw [Validate, if_pos hport] at hok
      exact absurd hok (by simp)
    · simp only [Validate, if_neg hport] at hok
      cases haa : validateAdminAuth c.gateway.adminAuth with
      | error e => simp only [haa] at hok; exact absurd hok (by simp)
      | ok u =>
        simp only [haa] at hok
        cases hvc : validateCtrs (containerNames c) (groupMembers c)
            (depTargets c) c.containers 0 [] [] with
        | error e => simp only [hvc] at hok; exact absurd hok (by simp)
        | ok r =>
          obtain ⟨sn2, sh2⟩ := r
          simp only [hvc] at hok
          cases hvg : validateGrps (containerNames c) c.groups 0 [] sh2 with
          | error e => simp only [hvg] at hok; exact absurd hok (by simp)
          | ok u2 =>
            obtain ⟨hsh2, hnodup⟩ := validateCtrs_ok_hosts (containerNames c)
              (groupMembers c) (depTargets c) c.containers 0 [] [] sn2 sh2 hvc
            have hsh2f : sh2 = (c.containers.map (fun x => x.host)).filter
                (fun h => h ≠ "") := by simpa using hsh2
            obtain ⟨hnd, hne⟩ := validateGrps_ok_hosts (containerNames c)
              c.groups 0 [] sh2 hvg (hnodup (by simp))
            have hfe : (c.groups.map (fun g => g.host)).filter
                (fun h => h ≠ "") = c.groups.map (fun g => g.host) := by
              apply List.filter_eq_self.mpr
              intro a ha
              rcases List.mem_map.mp ha with ⟨g, hg, hge⟩
              simpa [← hge] using hne g hg
            rw [nonEmptyHosts, List.filter_append, hfe]
            rw [hsh2f] at hnd
            exact hnd
  refine ⟨hmain, fun hdup hok => hdup (hmain hok), ?_⟩
  intro hpre hdup
  obtain ⟨hport, haa, hctrpre, hnames, hgrppre, hgnames⟩ := hpre
  have hfe : (c.groups.map (fun g => g.host)).filter
      (fun h => h ≠ "") = c.groups.map (fun g => g.host) := by
    apply List.filter_eq_self.mpr
    intro a ha
    rcases List.mem_map.mp ha with ⟨g, hg, hge⟩
    simpa [← hge] using (hgrppre g hg).2.1
  have hsplit : nonEmptyHosts c =
      (c.containers.map (fun x => x.host)).filter (fun h => h ≠ "") ++
      c.groups.map (fun g => g.host) := by
    rw [nonEmptyHosts, List.filter_append, hfe]
  rw [hsplit] at hdup
  by_cases hF : ((c.containers.map (fun x => x.host)).filter
      (fun h => h ≠ "")).Nodup
  · -- container hosts are distinct, so the duplicate involves a group host
    obtain ⟨r, hvc⟩ := validateCtrs_ok_of (containerNames c) (groupMembers c)
      (depTargets c) c.containers 0 [] [] hctrpre
      (by simpa [containerNames] using hnames) (by simpa using hF)
    obtain ⟨sn2, sh2⟩ := r
    obtain ⟨hsh2, _⟩ := validateCtrs_ok_hosts (containerNames c)
      (groupMembers c) (depTargets c) c.containers 0 [] [] sn2 sh2 hvc
    have hsh2f : sh2 = (c.containers.map (fun x => x.host)).filter
        (fun h => h ≠ "") := by simpa using hsh2
    obtain ⟨msg, h, he, hne, hcount, hdec⟩ := validateGrps_dup_error
      (containerNames c) c.groups 0 []
      ((c.containers.map (fun x => x.host)).filter (fun h => h ≠ ""))
      hgrppre (by simpa using hgnames) hF hdup
    have he2 : validateGrps (containerNames c) c.groups 0 [] sh2 =
        .error msg := by rw [hsh2f]; exact he
    refine ⟨msg, h, ?_, hne, ?_, hdec⟩
    · simp only [Validate, if_neg hport, haa, hvc, he2]
    · rw [hsplit]
      exact hcount
  · -- the duplicate is already among the container hosts
    obtain ⟨msg, h, he, hne, hcount, hdec⟩ := validateCtrs_dup_error
      (containerNames c) (groupMembers c) (depTargets c) c.containers 0 [] []
      hctrpre (by simpa [containerNames] using hnames) (by simp)
      (by simpa using hF)
    refine ⟨msg, h, ?_, hne, ?_, hdec⟩
    · simp only [Validate, if_neg hport, haa, he]
    · rw [hsplit, List.count_append]
      have : 2 ≤ ((c.containers.map (fun x => x.host)).filter
          (fun h => h ≠ "")).count h := by simpa using hcount
      omega

/-- Witness for C6: validating a catalog whose two workloads share one host
yields an error, and the message contains the duplicated host. -/
theorem validate_host_uniqueness_witness :
    PreChecksOK dupHostConfig ∧ ¬ (nonEmptyHosts dupHostConfig).Nodup ∧
    ∃ msg h, Validate dupHostConfig = .error msg ∧ h ≠ "" ∧
      2 ≤ (nonEmptyHosts dupHostConfig).count h ∧
      ∃ p q, msg = p ++ h ++ q := by
  have hpre : PreChecksOK dupHostConfig := by
    refine ⟨by simp [dupHostConfig], rfl, ?_,
      by simp [containerNames, dupHostConfig], ?_,
      by simp [dupHostConfig]⟩
    · intro ctr hctr
      simp only [dupHostConfig] at hctr
      rcases List.mem_cons.mp hctr with he | hm
      · rw [he]
        exact ⟨by decide, by decide, by intro hx; simp at hx,
          by intro d hd; simp at hd⟩
      · rcases List.mem_cons.mp hm with he2 | hm2
        · rw [he2]
          exact ⟨by decide, by decide, by intro hx; simp at hx,
            by intro d hd; simp at hd⟩
        · simp at hm2
    · intro g hg
      simp [dupHostConfig] at hg
  have hdup : ¬ (nonEmptyHosts dupHostConfig).Nodup := by
    simp [nonEmptyHosts, dupHostConfig]
  exact ⟨hpre, hdup,
    (validate_host_uniqueness dupHostConfig).2.2 hpre hdup⟩

/-! ### Claim C5 -/

theorem visitF_contract (containers : List ContainerConfig) :
    ∀ (fuel : Nat) (st : DfsSt) (name : String) (st2 : DfsSt),
      DfsInv containers st →
      visitF containers fuel st name = .ok st2 →
      DfsInv containers st2 ∧ (∃ ex, st2.order = st.order ++ ex) ∧
      st2.visiting = st.visiting ∧ name ∈ st2.order ∧
      (name ∉ st.visited → ∃ pre, st2.order = pre ++ [name]) := by
  intro fuel
  induction fuel with
  | zero =>
    intro st name st2 _ h
    simp [visitF] at h
  | succ fuel ih =>
    intro st name stF hinv h
    rw [visitF] at h
    by_cases hv : name ∈ st.visited
    · rw [if_pos hv] at h
      have hst : st = stF := by simpa using h
      subst hst
      refine ⟨hinv, ⟨[], by simp⟩, rfl, (hinv.2.1 name).mp hv, ?_⟩
      intro hnv
      exact absurd hv hnv
    · rw [if_neg hv] at h
      by_cases hvg : name ∈ st.visiting
      · rw [if_pos hvg] at h
        simp at h
      · rw [if_neg hvg] at h
        split at h
        · simp at h
        · rename_i cfg hlk
          have hnn : name ∉ st.order := fun hc => hv ((hinv.2.1 name).mpr hc)
          have hinv1 : DfsInv containers
              { st with visiting := name :: st.visiting } := by
            refine ⟨hinv.1, hinv.2.1, ?_, hinv.2.2.2⟩
            intro x hx
            have hxo := hinv.2.2.1 x hx
            simp only [List.mem_cons]
            rintro (he | hm)
            · exact hnn (he ▸ hx)
            · exact hxo hm
          have hdeps : ∀ (ds : List String) (s0 : DfsSt),
              DfsInv containers s0 →
              ∀ sR, visitDeps (fun s d => visitF containers fuel s d) s0 ds
                = .ok sR →
              DfsInv containers sR ∧ (∃ ex, sR.order = s0.order ++ ex) ∧
              sR.visiting = s0.visiting ∧ ∀ d ∈ ds, d ∈ sR.order := by
            intro ds
            induction ds with
            | nil =>
              intro s0 h0 sR hR
              have hse : s0 = sR := by simpa [visitDeps] using hR
              subst hse
              exact ⟨h0, ⟨[], by simp⟩, rfl, by simp⟩
            | cons d ds ihd =>
              intro s0 h0 sR hR
              rw [visitDeps] at hR
              cases hfd : visitF containers fuel s0 d with
              | error e => rw [hfd] at hR; simp at hR
              | ok s1 =>
                rw [hfd] at hR
                obtain ⟨hi1, ⟨ex1, hext1⟩, hvis1, hmem1, _⟩ :=
                  ih s0 d s1 h0 hfd
                obtain ⟨hiR, ⟨exR, hextR⟩, hvisR, hmemR⟩ := ihd s1 hi1 sR hR
                refine ⟨hiR,
                  ⟨ex1 ++ exR, by rw [hextR, hext1, List.append_assoc]⟩,
                  by rw [hvisR, hvis1], ?_⟩
                intro x hx
                rcases List.mem_cons.mp hx with he | hm
                · rw [he, hextR]
                  exact List.mem_append_left _ hmem1
                · exact hmemR x hm
          split at h
          · simp at h
          · rename_i st2 hvd
            obtain ⟨hi2, ⟨ex2, hext2⟩, hvis2, hmem2⟩ :=
              hdeps cfg.dependsOn _ hinv1 st2 hvd
            have hst2 :
                { visited := name :: st2.visited,
                  visiting := st2.visiting.erase name,
                  order := st2.order ++ [name] } = stF := by
              simpa using h
            have hvis2' : st2.visiting = name :: st.visiting := hvis2
            have hnameord : name ∉ st2.order := by
              intro hc
              have hnv := hi2.2.2.1 name hc
              rw [hvis2'] at hnv
              exact hnv (by simp)
            have herase : st2.visiting.erase name = st.visiting := by
              rw [hvis2']
              exact List.erase_cons_head _ _
            subst hst2
            refine ⟨⟨?_, ?_, ?_, ?_⟩, ?_, ?_, ?_, ?_⟩
            · simp [List.nodup_append, hi2.1, hnameord]
            · intro x
              simp only [List.mem_cons, List.mem_append, List.mem_singleton]
              rw [hi2.2.1 x]
              tauto
            · intro x hx
              show x ∉ st2.visiting.erase name
              rw [herase]
              rcases List.mem_append.mp hx with hxo | hxn
              · have hnv := hi2.2.2.1 x hxo
                rw [hvis2'] at hnv
                intro hc
                exact hnv (List.mem_cons_of_mem _ hc)
              · have hxe : x = name := by simpa using hxn
                rw [hxe]
                exact hvg
            · intro x hx
              rcases List.mem_append.mp hx with hxo | hxn
              · obtain ⟨cfgx, hcl, l1, l2, hdec, hdin⟩ := hi2.2.2.2 x hxo
                exact ⟨cfgx, hcl, l1, l2 ++ [name],
                  by show st2.order ++ [name] = _; rw [hdec]; simp, hdin⟩
              · have hxe : x = name := by simpa using hxn
                subst hxe
                exact ⟨cfg, hlk, st2.order, [], rfl, fun d hd => hmem2 d hd⟩
            · refine ⟨ex2 ++ [name], ?_⟩
              show st2.order ++ [name] = st.order ++ (ex2 ++ [name])
              rw [hext2]
              simp [List.append_assoc]
            · exact herase
            · simp
            · intro _
              exact ⟨st2.order, rfl⟩

theorem indexOf_lt_of_before (l1 : List String) (x : String) (l2 : List String)
    (d : String) (hnd : (l1 ++ x :: l2).Nodup) (hd : d ∈ l1) :
    (l1 ++ x :: l2).indexOf d < (l1 ++ x :: l2).indexOf x := by
  induction l1 with
  | nil => simp at hd
  | cons a t ihl =>
    rw [show ((a :: t) ++ x :: l2) = a :: (t ++ x :: l2) by simp] at hnd ⊢
    have hanin : a ∉ t ++ x :: l2 := (List.nodup_cons.mp hnd).1
    have hnd' : (t ++ x :: l2).Nodup := (List.nodup_cons.mp hnd).2
    have hax : a ≠ x := by
      intro he
      apply hanin
      rw [he]
      exact List.mem_append_right t (List.mem_cons_self x l2)
    by_cases hda : d = a
    · subst hda
      rw [List.indexOf_cons_self, List.indexOf_cons_ne _ hax]
      omega
    · have had : a ≠ d := fun he => hda he.symm
      rw [List.indexOf_cons_ne _ had, List.indexOf_cons_ne _ hax]
      have hrec := ihl hnd' (by
        rcases List.mem_cons.mp hd with he | hm
        · exact absurd he hda
        · exact hm)
      omega

theorem depEdge_rank (containers : List ContainerConfig)
    (order : List String) (hnd : order.Nodup)
    (hOK : ∀ x ∈ order, ∃ cfg, lookupCfg containers x = some cfg ∧
      ∃ l1 l2, order = l1 ++ x :: l2 ∧ ∀ d ∈ cfg.dependsOn, d ∈ l1)
    (x y : String) (hx : x ∈ order) (he : DepEdge containers x y) :
    y ∈ order ∧ order.indexOf y < order.indexOf x := by
  obtain ⟨cfg, hlk, hy⟩ := he
  obtain ⟨cfg2, hlk2, l1, l2, hdec, hsub⟩ := hOK x hx
  have hceq : cfg2 = cfg := by
    have h12 := hlk2.symm.trans hlk
    injection h12
  subst hceq
  have hdy : y ∈ l1 := hsub y hy
  subst hdec
  exact ⟨List.mem_append_left _ hdy, indexOf_lt_of_before l1 x l2 y hnd hdy⟩

/-- Claim C5: whenever `TopologicalSort` succeeds, the returned sequence has
no duplicates, lists every resolved node with all of its dependencies at
strictly earlier positions, contains the target, and ends with the target;
and it returns an error on every catalog with a dependency cycle reachable
from the target or with a reachable dependency name missing from the
catalog. -/
theorem topologicalSort_correct (target : String)
    (containers : List ContainerConfig) :
    (∀ order, TopologicalSort target containers = .ok order →
      order.Nodup ∧ order ≠ [] ∧ order.getLast? = some target ∧
      target ∈ order ∧
      ∀ x ∈ order, ∃ cfg, lookupCfg containers x = some cfg ∧
        ∃ l1 l2, order = l1 ++ x :: l2 ∧ ∀ d ∈ cfg.dependsOn, d ∈ l1) ∧
    ((∃ cNode, Relation.ReflTransGen (DepEdge containers) target cNode ∧
        Relation.TransGen (DepEdge containers) cNode cNode) →
      ∃ msg, TopologicalSort target containers = .error msg) ∧
    ((∃ x cfg d, Relation.ReflTransGen (DepEdge containers) target x ∧
        lookupCfg containers x = some cfg ∧ d ∈ cfg.dependsOn ∧
        lookupCfg containers d = none) →
      ∃ msg, TopologicalSort target containers = .error msg) := by
  have hpart1 : ∀ order, TopologicalSort target containers = .ok order →
      order.Nodup ∧ order ≠ [] ∧ order.getLast? = some target ∧
      target ∈ order ∧
      ∀ x ∈ order, ∃ cfg, lookupCfg containers x = some cfg ∧
        ∃ l1 l2, order = l1 ++ x :: l2 ∧ ∀ d ∈ cfg.dependsOn, d ∈ l1 := by
    intro order hok
    rw [TopologicalSort] at hok
    split at hok
    · simp at hok
    · rename_i tcfg hlkt
      split at hok
      · simp at hok
      · rename_i stF hvis
        have horder : stF.order = order := by simpa using hok
        have hinit : DfsInv containers
            { visited := [], visiting := [], order := [] } := by
          refine ⟨List.nodup_nil, fun x => Iff.rfl, by simp, by simp⟩
        obtain ⟨hinvF, ⟨ex, hext⟩, _, hmemT, hlast⟩ :=
          visitF_contract containers (containers.length + 1) _ target stF
            hinit hvis
        obtain ⟨pre, hpre⟩ := hlast (by simp)
        rw [← horder]
        refine ⟨hinvF.1, ?_, ?_, hmemT, hinvF.2.2.2⟩
        · rw [hpre]; simp
        · rw [hpre]; simp [List.getLast?_concat]
  refine ⟨hpart1, ?_, ?_⟩
  · rintro ⟨cN, hreach, hcyc⟩
    cases hres : TopologicalSort target containers with
    | error msg => exact ⟨msg, rfl⟩
    | ok order =>
      exfalso
      obtain ⟨hnd, _, _, htmem, hOK⟩ := hpart1 order hres
      have hmem : ∀ x, Relation.ReflTransGen (DepEdge containers) target x →
          x ∈ order := by
        intro x hx
        induction hx with
        | refl => exact htmem
        | tail hab hbc ihp =>
          exact (depEdge_rank containers order hnd hOK _ _ ihp hbc).1
      have hrank : ∀ x y, Relation.TransGen (DepEdge containers) x y →
          x ∈ order → y ∈ order ∧ order.indexOf y < order.indexOf x := by
        intro x y hxy hx
        induction hxy with
        | single hedge => exact depEdge_rank containers order hnd hOK _ _ hx hedge
        | tail hab hbc ihp =>
          obtain ⟨hb, hlt⟩ := ihp
          obtain ⟨hc, hlt2⟩ := depEdge_rank containers order hnd hOK _ _ hb hbc
          exact ⟨hc, lt_trans hlt2 hlt⟩
      obtain ⟨_, hlt⟩ := hrank cN cN hcyc (hmem cN hreach)
      exact lt_irrefl _ hlt
  · rintro ⟨x, cfg, d, hreach, hlkx, hd, hnone⟩
    cases hres : TopologicalSort target containers with
    | error msg => exact ⟨msg, rfl⟩
    | ok order =>
      exfalso
      obtain ⟨hnd, _, _, htmem, hOK⟩ := hpart1 order hres
      have hmem : ∀ z, Relation.ReflTransGen (DepEdge containers) target z →
          z ∈ order := by
        intro z hz
        induction hz with
        | refl => exact htmem
        | tail hab hbc ihp =>
          exact (depEdge_rank containers order hnd hOK _ _ ihp hbc).1
      have hx : x ∈ order := hmem x hreach
      have hdmem : d ∈ order :=
        (depEdge_rank containers order hnd hOK x d hx ⟨cfg, hlkx, hd⟩).1
      obtain ⟨cfgd, hlkd, _⟩ := hOK d hdmem
      rw [hnone] at hlkd
      exact absurd hlkd (by simp)

/-- Witness for C5: the chain catalog sorts to `["db", "api", "app"]`,
which is duplicate-free and ends with the target; and the two-container
cycle catalog makes the sort fail. -/
theorem topologicalSort_correct_witness :
    TopologicalSort "app" chainCatalog = .ok ["db", "api", "app"] ∧
    (["db", "api", "app"] : List String).Nodup ∧
    (["db", "api", "app"] : List String).getLast? = some "app" ∧
    ∃ msg, TopologicalSort "a" cycleCatalog = .error msg := by
  have hok : TopologicalSort "app" chainCatalog = .ok ["db", "api", "app"] :=
    by rfl
  have h := (topologicalSort_correct "app" chainCatalog).1
    ["db", "api", "app"] hok
  have hab : DepEdge cycleCatalog "a" "b" := ⟨_, rfl, by simp⟩
  have hba : DepEdge cycleCatalog "b" "a" := ⟨_, rfl, by simp⟩
  have hcyc := (topologicalSort_correct "a" cycleCatalog).2.1
    ⟨"a", Relation.ReflTransGen.refl,
      Relation.TransGen.tail (Relation.TransGen.single hab) hba⟩
  exact ⟨hok, h.1, h.2.2.1, hcyc⟩

/-! ### Claim C7 -/

theorem length_setPC (l : List PC) (i : Nat) (v : PC) :
    (setPC l i v).length = l.length := by
  induction l generalizing i with
  | nil => rfl
  | cons p rest ih =>
    cases i with
    | zero => rfl
    | succ k => simp [setPC, ih]

theorem lt_of_getq {α : Type} (l : List α) (i : Nat) (a : α)
    (h : l.get? i = some a) : i < l.length := by
  induction l generalizing i with
  | nil => simp [List.get?] at h
  | cons x rest ih =>
    cases i with
    | zero => simp
    | succ k =>
      have hk : rest.get? k = some a := h
      have := ih k hk
      simp [List.length_cons]
      omega

theorem setPC_get_eq (l : List PC) (i : Nat) (v : PC) (h : i < l.length) :
    (setPC l i v).get? i = some v := by
  induction l generalizing i with
  | nil => simp at h
  | cons p rest ih =>
    cases i with
    | zero => rfl
    | succ k =>
      have hk : k < rest.length := by simp at h; omega
      exact ih k hk

theorem setPC_get_ne (l : List PC) (i j : Nat) (v : PC) (h : j ≠ i) :
    (setPC l i v).get? j = l.get? j := by
  induction l generalizing i j with
  | nil => rfl
  | cons p rest ih =>
    cases i with
    | zero =>
      cases j with
      | zero => exact absurd rfl h
      | succ m => rfl
    | succ k =>
      cases j with
      | zero => rfl
      | succ m =>
        have : m ≠ k := fun hc => h (by rw [hc])
        exact ih k m this

theorem mem_setPC (l : List PC) (i : Nat) (v p : PC)
    (h : p ∈ setPC l i v) : p = v ∨ p ∈ l := by
  induction l generalizing i with
  | nil => simp [setPC] at h
  | cons q rest ih =>
    cases i with
    | zero =>
      rcases List.mem_cons.mp h with he | hm
      · exact Or.inl he
      · exact Or.inr (List.mem_cons_of_mem _ hm)
    | succ k =>
      rcases List.mem_cons.mp h with he | hm
      · exact Or.inr (he ▸ List.mem_cons_self _ _)
      · rcases ih k hm with h1 | h2
        · exact Or.inl h1
        · exact Or.inr (List.mem_cons_of_mem _ h2)

theorem getq_setPC_cases (l : List PC) (i j : Nat) (v w : PC)
    (h : (setPC l i v).get? j = some w) :
    (j = i ∧ w = v) ∨ (j ≠ i ∧ l.get? j = some w) := by
  by_cases hij : j = i
  · subst hij
    have hlt : j < l.length := by
      by_contra hge
      have hnone : (setPC l j v).get? j = none := by
        apply List.get?_eq_none.mpr
        rw [length_setPC]
        omega
      rw [hnone] at h
      exact absurd h (by simp)
    rw [setPC_get_eq l j v hlt] at h
    exact Or.inl ⟨rfl, (Option.some.inj h).symm⟩
  · exact Or.inr ⟨hij, by rw [setPC_get_ne l i j v hij] at h; exact h⟩

theorem CInv_init (n : Nat) : CInv (initState n) := by
  have hget : ∀ i pc, (List.replicate n PC.checkStatus).get? i = some pc →
      pc = PC.checkStatus := by
    intro i pc h
    exact List.eq_of_mem_replicate (List.get?_mem h)
  refine ⟨?_, by simp [initState], by simp [initState], by simp [initState],
    ?_, by simp [initState], ?_, ?_⟩
  · intro i hi
    rcases hi with h | h | h | h <;> exact absurd (hget i _ h) (by simp)
  · intro i h
    exact absurd (hget i _ h) (by simp)
  · intro i h
    exact absurd (hget i _ h) (by simp)
  · intro h
    exact absurd (List.eq_of_mem_replicate h) (by simp)

theorem inCS_after_set (s : CState) (i j : Nat) (v : PC)
    (hv : ¬ (v = PC.doubleCheck ∨ v = PC.doStart ∨ v = PC.poll ∨
      v = PC.unlock))
    (hj : inCS { s with pcs := setPC s.pcs i v } j) : j ≠ i ∧ inCS s j := by
  simp only [inCS] at hj ⊢
  have hji : j ≠ i := by
    intro hc
    subst hc
    rcases hj with h | h | h | h <;>
      rcases getq_setPC_cases _ _ _ _ _ h with ⟨_, hkv⟩ | ⟨hne, _⟩ <;>
      simp_all
  refine ⟨hji, ?_⟩
  rcases hj with h | h | h | h <;>
    rw [setPC_get_ne _ _ _ _ hji] at h <;> tauto

theorem inCS_after_set_cases (s : CState) (i j : Nat) (v : PC)
    (hj : inCS { s with pcs := setPC s.pcs i v } j) :
    j = i ∨ (j ≠ i ∧ inCS s j) := by
  by_cases hji : j = i
  · exact Or.inl hji
  · refine Or.inr ⟨hji, ?_⟩
    simp only [inCS] at hj ⊢
    rcases hj with h | h | h | h <;>
      rw [setPC_get_ne _ _ _ _ hji] at h <;> tauto

theorem CInv_step (s s2 : CState) (hs : CInv s) (h : EStep s s2) : CInv s2 := by
  unfold CInv at hs
  obtain ⟨hA, hB, hC, hD, hE, hF, hH, hG⟩ := hs
  cases h with
  | checkRun i hpc hrun =>
    refine ⟨?_, hB, hC, hD, ?_, ?_, ?_, ?_⟩
    · intro j hj
      obtain ⟨hji, hcs⟩ := inCS_after_set s i j PC.done (by simp) hj
      exact hA j hcs
    · intro j hj
      rcases getq_setPC_cases _ _ _ _ _ hj with ⟨_, hkv⟩ | ⟨_, ho⟩
      · simp at hkv
      · exact hE j ho
    · intro hst hrn
      simp only at hrn
      rw [hrun] at hrn
      exact absurd hrn (by simp)
    · intro j hj
      rcases getq_setPC_cases _ _ _ _ _ hj with ⟨_, hkv⟩ | ⟨_, ho⟩
      · simp at hkv
      · exact hH j ho
    · intro _
      exact hrun
  | checkStopped i hpc hrun =>
    refine ⟨?_, hB, hC, hD, ?_, ?_, ?_, ?_⟩
    · intro j hj
      obtain ⟨hji, hcs⟩ := inCS_after_set s i j PC.tryLock (by simp) hj
      exact hA j hcs
    · intro j hj
      rcases getq_setPC_cases _ _ _ _ _ hj with ⟨_, hkv⟩ | ⟨_, ho⟩
      · simp at hkv
      · exact hE j ho
    · intro hst hrn
      obtain ⟨k, hk, hkl⟩ := hF hst hrn
      have hki : k ≠ i := by
        intro hc
        rw [hc, hpc] at hk
        simp at hk
      exact ⟨k, by rw [setPC_get_ne _ _ _ _ hki]; exact hk, hkl⟩
    · intro j hj
      rcases getq_setPC_cases _ _ _ _ _ hj with ⟨_, hkv⟩ | ⟨_, ho⟩
      · simp at hkv
      · exact hH j ho
    · intro hmem
      rcases mem_setPC _ _ _ _ hmem with he | hm
      · simp at he
      · exact hG hm
  | acquire i hpc hlk =>
    refine ⟨?_, hB, hC, hD, ?_, ?_, ?_, ?_⟩
    · intro j hj
      rcases inCS_after_set_cases s i j PC.doubleCheck hj with hji | ⟨hji, hcs⟩
      · rw [hji]
      · have := hA j hcs
        rw [hlk] at this
        simp at this
    · intro j hj
      rcases getq_setPC_cases _ _ _ _ _ hj with ⟨_, hkv⟩ | ⟨_, ho⟩
      · simp at hkv
      · exact hE j ho
    · intro hst hrn
      obtain ⟨k, hk, hkl⟩ := hF hst hrn
      rw [hlk] at hkl
      simp at hkl
    · intro j hj
      rcases getq_setPC_cases _ _ _ _ _ hj with ⟨_, hkv⟩ | ⟨_, ho⟩
      · simp at hkv
      · exact hH j ho
    · intro hmem
      rcases mem_setPC _ _ _ _ hmem with he | hm
      · simp at he
      · exact hG hm
  | dcRun i hpc hrun =>
    refine ⟨?_, hB, hC, hD, ?_, ?_, ?_, ?_⟩
    · intro j hj
      rcases inCS_after_set_cases s i j PC.unlock hj with hji | ⟨hji, hcs⟩
      · rw [hji]
        exact hA i (Or.inl hpc)
      · exact hA j hcs
    · intro j hj
      rcases getq_setPC_cases _ _ _ _ _ hj with ⟨_, hkv⟩ | ⟨_, ho⟩
      · simp at hkv
      · exact hE j ho
    · intro hst hrn
      simp only at hrn
      rw [hrun] at hrn
      exact absurd hrn (by simp)
    · intro j hj
      rcases getq_setPC_cases _ _ _ _ _ hj with ⟨_, hkv⟩ | ⟨_, ho⟩
      · exact hrun
      · exact hH j ho
    · intro hmem
      rcases mem_setPC _ _ _ _ hmem with he | hm
      · simp at he
      · exact hG hm
  | dcStopped i hpc hrun =>
    have hstf : s.started = false := by
      cases hs2 : s.started with
      | false => rfl
      | true =>
        obtain ⟨k, hkp, hkl⟩ := hF hs2 hrun
        have hli := hA i (Or.inl hpc)
        have hik : i = k := by
          have := hli.symm.trans hkl
          injection this
        rw [← hik, hpc] at hkp
        simp at hkp
    refine ⟨?_, hB, hC, hD, ?_, ?_, ?_, ?_⟩
    · intro j hj
      rcases inCS_after_set_cases s i j PC.doStart hj with hji | ⟨hji, hcs⟩
      · rw [hji]
        exact hA i (Or.inl hpc)
      · exact hA j hcs
    · intro j hj
      exact hstf
    · intro hst hrn
      simp only at hst
      rw [hstf] at hst
      exact absurd hst (by simp)
    · intro j hj
      rcases getq_setPC_cases _ _ _ _ _ hj with ⟨_, hkv⟩ | ⟨_, ho⟩
      · simp at hkv
      · exact hH j ho
    · intro hmem
      rcases mem_setPC _ _ _ _ hmem with he | hm
      · simp at he
      · exact hG hm
  | start i hpc =>
    have hstf : s.started = false := hE i hpc
    have hc0 : s.startCount = 0 := by
      by_contra h0
      have := hC.mpr h0
      rw [hstf] at this
      exact absurd this (by simp)
    have hlock : s.lockOwner = some i := hA i (Or.inr (Or.inl hpc))
    refine ⟨?_, ?_, ?_, ?_, ?_, ?_, ?_, ?_⟩
    · intro j hj
      rcases inCS_after_set_cases s i j PC.poll hj with hji | ⟨hji, hcs⟩
      · rw [hji]
        exact hlock
      · exact hA j hcs
    · show s.startCount + 1 ≤ 1
      omega
    · simp
    · intro _
      rfl
    · intro j hj
      rcases getq_setPC_cases _ _ _ _ _ hj with ⟨_, hkv⟩ | ⟨hji, ho⟩
      · simp at hkv
      · have := hA j (Or.inr (Or.inl ho))
        have h2 := this.symm.trans hlock
        injection h2 with h3
        exact absurd h3 hji
    · intro _ _
      refine ⟨i, ?_, hlock⟩
      rw [setPC_get_eq _ _ _ (lt_of_getq _ _ _ hpc)]
    · intro j hj
      rcases getq_setPC_cases _ _ _ _ _ hj with ⟨_, hkv⟩ | ⟨_, ho⟩
      · simp at hkv
      · exact hH j ho
    · intro hmem
      rcases mem_setPC _ _ _ _ hmem with he | hm
      · simp at he
      · exact hG hm
  | pollRun i hpc hrun =>
    refine ⟨?_, hB, hC, hD, ?_, ?_, ?_, ?_⟩
    · intro j hj
      rcases inCS_after_set_cases s i j PC.unlock hj with hji | ⟨hji, hcs⟩
      · rw [hji]
        exact hA i (Or.inr (Or.inr (Or.inl hpc)))
      · exact hA j hcs
    · intro j hj
      rcases getq_setPC_cases _ _ _ _ _ hj with ⟨_, hkv⟩ | ⟨_, ho⟩
      · simp at hkv
      · exact hE j ho
    · intro hst hrn
      simp only at hrn
      rw [hrun] at hrn
      exact absurd hrn (by simp)
    · intro j hj
      rcases getq_setPC_cases _ _ _ _ _ hj with ⟨_, hkv⟩ | ⟨_, ho⟩
      · exact hrun
      · exact hH j ho
    · intro hmem
      rcases mem_setPC _ _ _ _ hmem with he | hm
      · simp at he
      · exact hG hm
  | release i hpc hlo =>
    have hrun : s.running = true := hH i hpc
    refine ⟨?_, hB, hC, hD, ?_, ?_, ?_, ?_⟩
    · intro j hj
      obtain ⟨hji, hcs⟩ := inCS_after_set s i j PC.done (by simp) hj
      have := (hA j hcs).symm.trans hlo
      injection this with h3
      exact absurd h3 hji
    · intro j hj
      rcases getq_setPC_cases _ _ _ _ _ hj with ⟨_, hkv⟩ | ⟨_, ho⟩
      · simp at hkv
      · exact hE j ho
    · intro hst hrn
      simp only at hrn
      rw [hrun] at hrn
      exact absurd hrn (by simp)
    · intro j hj
      rcases getq_setPC_cases _ _ _ _ _ hj with ⟨_, hkv⟩ | ⟨_, ho⟩
      · simp at hkv
      · exact hH j ho
    · intro _
      exact hrun
  | envRun hst =>
    refine ⟨?_, hB, hC, ?_, ?_, ?_, ?_, ?_⟩
    · intro j hj
      exact hA j hj
    · intro _
      exact hst
    · intro j hj
      exact hE j hj
    · intro _ hrn
      exact absurd hrn (by simp)
    · intro j hj
      rfl
    · intro _
      rfl

/-- Claim C7: in every state reachable by `n` concurrent `EnsureRunning`
invocations on a stopped container, at most one `StartContainer` call has
been issued and at most one thread has a start in flight (between issuing
the start and completing the wait); and in a terminal state where every
thread has finished (with at least one thread), exactly one
`StartContainer` call occurred. -/
theorem ensureRunning_single_start (n : Nat) (s : CState)
    (hr : CReachable n s) :
    s.startCount ≤ 1 ∧
    (∀ i j, startInFlight s i → startInFlight s j → i = j) ∧
    ((∀ pc ∈ s.pcs, pc = PC.done) → s.pcs ≠ [] → s.startCount = 1) := by
  have hinv : CInv s := by
    induction hr with
    | refl => exact CInv_init n
    | tail hab hbc ihp => exact CInv_step _ _ ihp hbc
  unfold CInv at hinv
  obtain ⟨hA, hB, hC, hD, hE, hF, hH, hG⟩ := hinv
  refine ⟨hB, ?_, ?_⟩
  · intro i j hi hj
    simp only [startInFlight] at hi hj
    have h1 : s.lockOwner = some i := by
      apply hA i
      simp only [inCS]
      tauto
    have h2 : s.lockOwner = some j := by
      apply hA j
      simp only [inCS]
      tauto
    have := h1.symm.trans h2
    injection this
  · intro hall hne
    have hdone : PC.done ∈ s.pcs := by
      cases hp : s.pcs with
      | nil => exact absurd hp hne
      | cons p rest =>
        have hpd := hall p (by rw [hp]; exact List.mem_cons_self _ _)
        exact List.mem_cons.mpr (Or.inl hpd.symm)
    have hrun := hG hdone
    have hst := hD hrun
    have hcnt := hC.mp hst
    omega

/-- Witness for C7: a full interleaving of one thread waking the stopped
container — status check, lock, double-check, start, container comes up,
poll observes it, unlock — reaches the terminal state `demoFinal` with
exactly one start call. -/
theorem ensureRunning_single_start_witness :
    CReachable 1 demoFinal ∧ (∀ pc ∈ demoFinal.pcs, pc = PC.done) ∧
    demoFinal.pcs ≠ [] ∧ demoFinal.startCount = 1 := by
  have hr1 := Relation.ReflTransGen.tail (Relation.ReflTransGen.refl)
    (EStep.checkStopped (initState 1) 0 rfl rfl)
  have hr2 := Relation.ReflTransGen.tail hr1 (EStep.acquire _ 0 rfl rfl)
  have hr3 := Relation.ReflTransGen.tail hr2 (EStep.dcStopped _ 0 rfl rfl)
  have hr4 := Relation.ReflTransGen.tail hr3 (EStep.start _ 0 rfl)
  have hr5 := Relation.ReflTransGen.tail hr4 (EStep.envRun _ rfl)
  have hr6 := Relation.ReflTransGen.tail hr5 (EStep.pollRun _ 0 rfl rfl)
  have hr7 := Relation.ReflTransGen.tail hr6 (EStep.release _ 0 rfl rfl)
  have hrf : CReachable 1 demoFinal := hr7
  refine ⟨hrf, ?_, by simp [demoFinal], ?_⟩
  · intro pc hpc
    simp [demoFinal] at hpc
    exact hpc
  · exact (ensureRunning_single_start 1 demoFinal hrf).2.2
      (by intro pc hpc
          simp [demoFinal] at hpc
          exact hpc)
      (by simp [demoFinal])
